import Mathlib

/-!
Shallow embedding of the reti staking contracts
(src/contracts/contracts/stakingPool.algo.ts: the StakingPool contract,
programVersion 10, and the ValidatorRegistry contract in the same file).

Machine integers (AVM uint64) are modelled as Nat.  All reward formulas in
the source use `wideRatio`, a 128-bit-intermediate floor division, which
never overflows for the operand sizes involved; Nat therefore agrees with
the AVM semantics on every state reachable under the contract invariants.
Subtraction sites that would panic on AVM underflow are either guarded by
the same comparisons the source makes or are unreachable under the
well-formedness hypotheses carried by the theorems below.
-/

namespace Reti

/-- Ledger record for one staker slot, mirroring `StakedInfo` of the
StakingPool contract (fields Account, Balance, TotalRewarded,
RewardTokenBalance, EntryTime).  Addresses are modelled as Nat with 0 the
zero address. -/
structure StakedInfo where
  account : Nat
  balance : Nat
  totalRewarded : Nat
  rewardTokenBalance : Nat
  entryTime : Nat
deriving DecidableEq, Repr

/-- Empty ledger slot (Account = zero address). -/
def noSlot : StakedInfo := ⟨0, 0, 0, 0, 0⟩

/-- Mutable global state of one StakingPool instance (global keys
poolID, numStakers, staked, minEntryStake, maxStake, lastPayout and the
`stakers` box). -/
structure PoolState where
  poolID : Nat
  numStakers : Nat
  totalAlgoStaked : Nat
  minEntryStake : Nat
  maxStakeAllowed : Nat
  lastPayout : Nat
  stakers : List StakedInfo
deriving DecidableEq, Repr

/-- Failure modes of the pool methods; each corresponds to a `throw` or a
failed `assert` in the source. -/
inductive PoolErr where
  | stakingPoolFull
  | insufficientBalance
  | accountNotFound
  | belowMinEntry
  | belowMinUnlessAll
  | exceedsMaxStake
  | zeroAddress
  | epochTooEarly
  | rewardTooSmall
deriving DecidableEq, Repr

/-- Floor-division helper matching the source `wideRatio(nums, dens)`:
product of numerators divided by product of denominators, with a 128-bit
intermediate on chain (no overflow for the operand sizes used here). -/
def wideRatio (nums dens : List Nat) : Nat := nums.prod / dens.prod

/-! StakingPool.addStake (source lines 449-514).  The loop walks the
ledger: a slot owned by the staker accumulates the amount; otherwise the
loop BREAKS at the first empty slot, which then receives a fresh record
(after the minimum-entry check).  An exhausted ledger is a full pool. -/

/-- Ledger walk of `addStake`: returns the updated ledger and whether a
new staker slot was created. -/
def stakeInsert (minEntryStake staker amount entryTime : Nat) :
    List StakedInfo → Except PoolErr (List StakedInfo × Bool)
  | [] => .error .stakingPoolFull
  | s :: rest =>
    if s.account = staker then
      .ok ({ s with balance := s.balance + amount, entryTime := entryTime } :: rest, false)
    else if s.account = 0 then
      if amount < minEntryStake then .error .belowMinEntry
      else .ok (⟨staker, amount, 0, 0, entryTime⟩ :: rest, true)
    else
      match stakeInsert minEntryStake staker amount entryTime rest with
      | .error e => .error e
      | .ok (l, isNew) => .ok (s :: l, isNew)

/-- StakingPool.addStake: the caller-side asserts (non-zero staker, max
stake bound) followed by the ledger walk and the counter updates. -/
def addStake (st : PoolState) (staker amount entryTime : Nat) :
    Except PoolErr PoolState :=
  if staker = 0 then .error .zeroAddress
  else if st.maxStakeAllowed < amount + st.totalAlgoStaked then .error .exceedsMaxStake
  else
    match stakeInsert st.minEntryStake staker amount entryTime st.stakers with
    | .error e => .error e
    | .ok (l, isNew) =>
      .ok { st with
            stakers := l,
            numStakers := if isNew then st.numStakers + 1 else st.numStakers,
            totalAlgoStaked := st.totalAlgoStaked + amount }

/-- Report sent to the ValidatorRegistry by `stakeRemoved` after an
unstake or token claim. -/
structure RemovedMsg where
  amountRemoved : Nat
  tokenRemoved : Nat
  stakerRemoved : Bool
deriving DecidableEq, Repr

/-! StakingPool.removeStake (source lines 523-616).  Caller is the staker;
amount 0 means unstake everything; the residual balance must be 0 or at
least the minimum entry stake; a residual of 0 frees the slot. -/

/-- Ledger walk of `removeStake`: returns the updated ledger, the amount
unstaked, the reward-token amount removed and whether the slot was
freed. -/
def removeStakeGo (minEntryStake sender amt : Nat) :
    List StakedInfo → Except PoolErr (List StakedInfo × Nat × Nat × Bool)
  | [] => .error .accountNotFound
  | s :: rest =>
    if s.account = sender then
      let amountToUnstake := if amt = 0 then s.balance else amt
      if s.balance < amountToUnstake then .error .insufficientBalance
      else
        let newBal := s.balance - amountToUnstake
        let tokenRemoved := if 0 < s.rewardTokenBalance then s.rewardTokenBalance else 0
        if newBal = 0 ∨ minEntryStake ≤ newBal then
          if newBal = 0 then
            .ok (⟨0, 0, 0, 0, s.entryTime⟩ :: rest, amountToUnstake, tokenRemoved, true)
          else
            .ok ({ s with balance := newBal, rewardTokenBalance := 0 } :: rest,
                 amountToUnstake, tokenRemoved, false)
        else .error .belowMinUnlessAll
    else
      match removeStakeGo minEntryStake sender amt rest with
      | .error e => .error e
      | .ok (l, a, t, b) => .ok (s :: l, a, t, b)

/-- StakingPool.removeStake: ledger walk plus counter updates and the
`stakeRemoved` report to the registry. -/
def removeStake (st : PoolState) (sender amt : Nat) :
    Except PoolErr (PoolState × RemovedMsg) :=
  match removeStakeGo st.minEntryStake sender amt st.stakers with
  | .error e => .error e
  | .ok (l, amountRemoved, tokenRemoved, removed) =>
    .ok ({ st with
           stakers := l,
           totalAlgoStaked := st.totalAlgoStaked - amountRemoved,
           numStakers := if removed then st.numStakers - 1 else st.numStakers },
         ⟨amountRemoved, tokenRemoved, removed⟩)

/-! StakingPool.claimTokens (source lines 623-683).  Like removeStake but
only pays out the reward-token balance; if the found slot has a zero
token balance the method returns immediately without touching state and
without calling the registry. -/

/-- Ledger walk of `claimTokens`: `none` for the early return (zero token
balance), otherwise the updated ledger and the token amount removed. -/
def claimTokensGo (sender : Nat) :
    List StakedInfo → Except PoolErr (List StakedInfo × Option Nat)
  | [] => .error .accountNotFound
  | s :: rest =>
    if s.account = sender then
      if s.rewardTokenBalance = 0 then .ok (s :: rest, none)
      else .ok ({ s with rewardTokenBalance := 0 } :: rest, some s.rewardTokenBalance)
    else
      match claimTokensGo sender rest with
      | .error e => .error e
      | .ok (l, t) => .ok (s :: l, t)

/-- StakingPool.claimTokens; the second component is the `stakeRemoved`
report to the registry (`none` when no call is made). -/
def claimTokens (st : PoolState) (sender : Nat) :
    Except PoolErr (PoolState × Option RemovedMsg) :=
  match claimTokensGo sender st.stakers with
  | .error e => .error e
  | .ok (_, none) => .ok (st, none)
  | .ok (l, some tok) => .ok ({ st with stakers := l }, some ⟨0, tok, false⟩)

/-- Projection used in decidable closed statements about Except values. -/
def okOf? {ε α : Type} : Except ε α → Option α
  | .ok a => some a
  | .error _ => none

/-- Projection of the error of an Except value. -/
def errOf? {ε α : Type} : Except ε α → Option ε
  | .ok _ => none
  | .error e => some e

/-! ValidatorRegistry data model (the ValidatorRegistry contract in the
same source file). -/

/-- Composite pool identity `ValidatorPoolKey {ID, PoolID, PoolAppID}`;
PoolID 0 is the invalid / sentinel id. -/
structure ValidatorPoolKey where
  id : Nat
  poolID : Nat
  poolAppID : Nat
deriving DecidableEq, Repr

/-- Registry `PoolInfo` row (NodeID, PoolAppID, TotalStakers,
TotalAlgoStaked). -/
structure PoolInfoR where
  nodeID : Nat
  poolAppID : Nat
  totalStakers : Nat
  totalAlgoStaked : Nat
deriving DecidableEq, Repr

/-- Registry pool row that is all zeroes (an unused slot of the static
`Pools` array). -/
def noPool : PoolInfoR := ⟨0, 0, 0, 0⟩

/-- Registry-side `ValidatorConfig` (PayoutEveryXDays, PercentToValidator,
ValidatorCommissionAddress, MinAllowedStake, MaxAlgoPerPool, PoolsPerNode,
MaxNodes). -/
structure ValidatorConfigR where
  payoutEveryXDays : Nat
  percentToValidator : Nat
  validatorCommissionAddress : Nat
  minAllowedStake : Nat
  maxAlgoPerPool : Nat
  poolsPerNode : Nat
  maxNodes : Nat
deriving DecidableEq, Repr

/-- Failure modes of registry methods. -/
inductive RegErr where
  | zeroAddress
  | invalidConfig
  | belowMinEntry
deriving DecidableEq, Repr

/-- Registry `validateConfig` (source lines 1596-1605).  The protocol
constants MIN_ALGO_STAKE_PER_POOL and MAX_ALGO_PER_POOL come from
constants.algo, a file not present in this snapshot; they are passed as
the parameters `minStakeConst` and `maxPoolConst`.  The literal bounds
(PayoutEveryXDays in [1,30], PercentToValidator in
[10000, 100000], PoolsPerNode in [1,4], MaxNodes in [1,12]) are the
constants declared at the top of the registry source. -/
def validateConfig (minStakeConst maxPoolConst : Nat) (c : ValidatorConfigR) : Bool :=
  decide (1 ≤ c.payoutEveryXDays) && decide (c.payoutEveryXDays ≤ 30) &&
  decide (10000 ≤ c.percentToValidator) && decide (c.percentToValidator ≤ 100000) &&
  decide (c.validatorCommissionAddress ≠ 0) &&
  decide (minStakeConst ≤ c.minAllowedStake) &&
  decide (c.maxAlgoPerPool ≤ maxPoolConst) &&
  decide (0 < c.poolsPerNode) && decide (c.poolsPerNode ≤ 4) &&
  decide (0 < c.maxNodes) && decide (c.maxNodes ≤ 12)

/-- Registry `addValidator` (source lines 1368-1387): rejects a zero
owner or manager, validates the config, then appends a record with id
`numValidators + 1` and returns that id.  The result pairs the new
`numValidators` value with the returned id. -/
def addValidator (minStakeConst maxPoolConst numValidators owner manager : Nat)
    (c : ValidatorConfigR) : Except RegErr (Nat × Nat) :=
  if owner = 0 then .error .zeroAddress
  else if manager = 0 then .error .zeroAddress
  else if validateConfig minStakeConst maxPoolConst c then
    .ok (numValidators + 1, numValidators + 1)
  else .error .invalidConfig

/-! Registry findPoolForStaker (source lines 1554-1594).  First walk of
the staker's existing pool set (entries for this validator whose pool
still fits the amount STRICTLY below maxAlgoPerPool); then the
minimum-entry assert; then a walk of the WHOLE static `Pools` array of
the validator record (all MAX_POOLS slots, created or not). -/

/-- Walk of `StakerPoolSet[staker]`: the first entry whose validator
matches and whose pool row satisfies
`TotalAlgoStaked + amountToStake < maxPerPool`. -/
def findInPoolSet (validatorID amount maxPerPool : Nat) (pools : List PoolInfoR) :
    List ValidatorPoolKey → Option ValidatorPoolKey
  | [] => none
  | k :: rest =>
    if k.id = validatorID then
      if (pools.getD (k.poolID - 1) noPool).totalAlgoStaked + amount < maxPerPool then some k
      else findInPoolSet validatorID amount maxPerPool pools rest
    else findInPoolSet validatorID amount maxPerPool pools rest

/-- Walk of the validator's static `Pools` array starting at index `i`:
first row with `TotalAlgoStaked + amountToStake < maxPerPool`, else the
sentinel key `(validatorID, 0, 0)`. -/
def scanAllPools (validatorID amount maxPerPool : Nat) :
    List PoolInfoR → Nat → ValidatorPoolKey
  | [], _ => ⟨validatorID, 0, 0⟩
  | p :: rest, i =>
    if p.totalAlgoStaked + amount < maxPerPool then ⟨validatorID, i + 1, p.poolAppID⟩
    else scanAllPools validatorID amount maxPerPool rest (i + 1)

/-- Registry `findPoolForStaker`.  `poolSet` is
`StakerPoolSet[staker]` when that box exists.  `pools` is the full
static `Pools` array (48 rows) of the validator record. -/
def findPoolForStaker (cfg : ValidatorConfigR) (pools : List PoolInfoR)
    (poolSet : Option (List ValidatorPoolKey)) (validatorID amount : Nat) :
    Except RegErr ValidatorPoolKey :=
  let fromSet : Option ValidatorPoolKey :=
    match poolSet with
    | some ps => findInPoolSet validatorID amount cfg.maxAlgoPerPool pools ps
    | none => none
  match fromSet with
  | some k => .ok k
  | none =>
    if amount < cfg.minAllowedStake then .error .belowMinEntry
    else .ok (scanAllPools validatorID amount cfg.maxAlgoPerPool pools 0)

/-! StakingPool.epochBalanceUpdate (source lines 748-1065).  The method
gates on the epoch length, snapshots reward sources, pays the fee sink or
the validator commission, and then runs the two allocation passes over
the ledger.  Cross-contract reads (validator config and state, pool 1's
token balance, the token payout-ratio snapshot) are inputs. -/

/-- Condition under which a slot is handled by pass 1 (a "partial epoch"
slot): non-empty, and either forward-dated entry time or less than one
epoch in the pool. -/
def partScope (e cur : Nat) (s : StakedInfo) : Bool :=
  decide (s.account ≠ 0) && (decide (cur < s.entryTime) || decide (cur - s.entryTime < e))

/-- Condition under which a slot is credited by pass 2: non-empty, entry
time strictly in the past, and at least one epoch in the pool. -/
def fullScope (e cur : Nat) (s : StakedInfo) : Bool :=
  decide (s.account ≠ 0) && decide (s.entryTime < cur) && decide (e ≤ cur - s.entryTime)

/-- Pass-1 credit of one slot out of a reward stream holding `avail`
units: zero for empty, forward-dated or full-epoch slots, else
`wideRatio([balance, avail, timePercentage], [totalStaked, 1000])` with
`timePercentage = timeInPool * 1000 / epochInSecs` (and zero when the
stream is exhausted, matching the `> 0` guards of the source). -/
def partCredit (S e cur avail : Nat) (s : StakedInfo) : Nat :=
  if s.account = 0 then 0
  else if cur < s.entryTime then 0
  else if cur - s.entryTime < e then
    if 0 < avail then
      wideRatio [s.balance, avail, (cur - s.entryTime) * 1000 / e] [S, 1000]
    else 0
  else 0

/-- Single reward stream of pass 1 in isolation: the per-slot credits in
ledger order and the final residual, each credit being deducted from the
stream before the next slot.  Pass 1 runs two independent instances of
this computation (token and algo). -/
def stream (S e cur : Nat) : List StakedInfo → Nat → List Nat × Nat
  | [], avail => ([], avail)
  | s :: rest, avail =>
    let c := partCredit S e cur avail s
    let o := stream S e cur rest (avail - c)
    (c :: o.1, o.2)

/-- Pass-2 credit of one slot: `wideRatio([balance, avail], [newPoolTotalStake])`
for full-epoch slots while the stream has funds, zero otherwise.  Pass 2
does not decrement the stream. -/
def fullCredit (E e cur avail : Nat) (s : StakedInfo) : Nat :=
  if fullScope e cur s then (if 0 < avail then wideRatio [s.balance, avail] [E] else 0)
  else 0

/-- Ledger-slot update applied when a slot is credited: algo credit
compounds into Balance and TotalRewarded, token credit into
RewardTokenBalance. -/
def updateSlot (s : StakedInfo) (aC tC : Nat) : StakedInfo :=
  { s with
    balance := s.balance + aC,
    totalRewarded := s.totalRewarded + aC,
    rewardTokenBalance := s.rewardTokenBalance + tC }

/-- Output of the first allocation pass. -/
structure Pass1Out where
  slots : List StakedInfo
  algoCredits : List Nat
  tokenCredits : List Nat
  algoAvail : Nat
  tokenAvail : Nat
  partTotal : Nat
deriving DecidableEq, Repr

/-- Pass 1 (source lines 931-988): walk the ledger once, crediting each
partial-epoch slot a time-weighted share of both streams, deducting each
credit from the stream so later slots divide the residual, and summing
partial-epoch balances into `partialStakersTotalStake`. -/
def pass1 (S e cur : Nat) : List StakedInfo → Nat → Nat → Pass1Out
  | [], a, t => ⟨[], [], [], a, t, 0⟩
  | s :: rest, a, t =>
    let aC := partCredit S e cur a s
    let tC := partCredit S e cur t s
    let o := pass1 S e cur rest (a - aC) (t - tC)
    ⟨updateSlot s aC tC :: o.slots, aC :: o.algoCredits, tC :: o.tokenCredits,
     o.algoAvail, o.tokenAvail,
     o.partTotal + (if partScope e cur s then s.balance else 0)⟩

/-- Pass 2 (source lines 997-1045): walk the ledger again with the fixed
residual streams, crediting each full-epoch slot its share of the
residual against `newPoolTotalStake`. -/
def pass2 (E e cur aAvail tAvail : Nat) :
    List StakedInfo → List StakedInfo × List Nat × List Nat
  | [] => ([], [], [])
  | s :: rest =>
    let tC := fullCredit E e cur tAvail s
    let aC := fullCredit E e cur aAvail s
    let o := pass2 E e cur aAvail tAvail rest
    (updateSlot s aC tC :: o.1, aC :: o.2.1, tC :: o.2.2)

/-- Sum of the balances of the pass-1 ("partial epoch") slots of a
ledger. -/
def partStakeSum (e cur : Nat) : List StakedInfo → Nat
  | [] => 0
  | s :: rest => (if partScope e cur s then s.balance else 0) + partStakeSum e cur rest

/-- Sum of the balances of the pass-2 ("full epoch") slots of a
ledger. -/
def fullStakeSum (e cur : Nat) : List StakedInfo → Nat
  | [] => 0
  | s :: rest => (if fullScope e cur s then s.balance else 0) + fullStakeSum e cur rest

/-- Inputs of one `epochBalanceUpdate` call: the block timestamp, the
validator config fields the method reads (PayoutEveryXMins,
PercentToValidator, ValidatorCommissionAddress, RewardTokenID,
RewardPerPayout), the validator state (TotalAlgoStaked,
RewardTokenHeldBack), the pool's algo balance and min-balance, pool 1's
reward-token balance, this pool's entry of the token payout-ratio
snapshot, and the protocol constant MAX_VALIDATOR_PCT_OF_ONLINE
(constants.algo is not in this snapshot, so the constant is an input). -/
structure EpochInput where
  curTime : Nat
  payoutEveryXMins : Nat
  percentToValidator : Nat
  validatorCommissionAddress : Nat
  rewardTokenID : Nat
  rewardPerPayout : Nat
  vTotalAlgoStaked : Nat
  rewardTokenHeldBack : Nat
  poolBalance : Nat
  poolMinBalance : Nat
  pool1TokenBalance : Nat
  poolPctOfWhole : Nat
  maxValidatorPctOfOnline : Nat
deriving DecidableEq, Repr

/-- Fixed online-stake stub of the source (`getCurrentOnlineStake`
returns 2 billion algo until an AVM opcode exists). -/
def getCurrentOnlineStake : Nat := 2000000000000000

/-- `maxAllowedStake` (source lines 1184-1188):
`wideRatio([onlineStake, MAX_VALIDATOR_PCT_OF_ONLINE], [1000])`. -/
def maxAllowedStake (maxValidatorPctOfOnline : Nat) : Nat :=
  wideRatio [getCurrentOnlineStake, maxValidatorPctOfOnline] [1000]

/-- Epoch length in seconds: `PayoutEveryXMins * 60`. -/
def epochInSecs (inp : EpochInput) : Nat := inp.payoutEveryXMins * 60

/-- Algo reward pool before any payment:
`balance - TotalAlgoStaked - minBalance`. -/
def algoReward0 (inp : EpochInput) (st : PoolState) : Nat :=
  inp.poolBalance - st.totalAlgoStaked - inp.poolMinBalance

/-- Protocol-cap check: the validator's total stake exceeds
`maxAllowedStake`, so the whole reward is redirected to the fee sink. -/
def sinkExceeded (inp : EpochInput) : Bool :=
  decide (maxAllowedStake inp.maxValidatorPctOfOnline < inp.vTotalAlgoStaked)

/-- Token reward available to this pool: when a reward token is
configured and pool 1 holds at least RewardPerPayout beyond the
held-back amount, this pool's snapshot share of RewardPerPayout, else
zero. -/
def tokenAvail0 (inp : EpochInput) : Nat :=
  if inp.rewardTokenID ≠ 0 ∧
      inp.rewardPerPayout ≤ inp.pool1TokenBalance - inp.rewardTokenHeldBack then
    wideRatio [inp.rewardPerPayout, inp.poolPctOfWhole] [1000000]
  else 0

/-- Validator commission: zero when the reward goes to the fee sink or
PercentToValidator is zero, else
`wideRatio([algoRewardAvail, PercentToValidator], [1_000_000])` on the
reward pool before any staker credit. -/
def validatorCut (inp : EpochInput) (st : PoolState) : Nat :=
  if sinkExceeded inp then 0
  else if inp.percentToValidator ≠ 0 then
    wideRatio [algoReward0 inp st, inp.percentToValidator] [1000000]
  else 0

/-- Algo stream entering pass 1: zero after a fee-sink redirect,
otherwise the reward pool minus the validator commission. -/
def algoAvail1 (inp : EpochInput) (st : PoolState) : Nat :=
  if sinkExceeded inp then 0 else algoReward0 inp st - validatorCut inp st

/-- Amount paid to the fee sink (the whole reward pool on a protocol-cap
redirect, zero otherwise). -/
def feeSinkAmt (inp : EpochInput) (st : PoolState) : Nat :=
  if sinkExceeded inp then algoReward0 inp st else 0

/-- Result of a successful `epochBalanceUpdate`, with the per-slot credit
lists of both passes kept as observable outputs. -/
structure EpochResult where
  newState : PoolState
  feeSinkPaid : Nat
  validatorPaid : Nat
  validatorPaidTo : Nat
  algoAvailStart : Nat
  tokenAvailStart : Nat
  algoCreditsP1 : List Nat
  tokenCreditsP1 : List Nat
  algoCreditsP2 : List Nat
  tokenCreditsP2 : List Nat
  partTotal : Nat
  increasedStake : Nat
  tokenPaidOut : Nat
deriving DecidableEq, Repr

/-- Pass-1 run of a call. -/
def p1Out (inp : EpochInput) (st : PoolState) : Pass1Out :=
  pass1 st.totalAlgoStaked (epochInSecs inp) inp.curTime st.stakers
    (algoAvail1 inp st) (tokenAvail0 inp)

/-- `newPoolTotalStake` of the source: pool stake minus the partial-epoch
stake. -/
def effStake (inp : EpochInput) (st : PoolState) : Nat :=
  st.totalAlgoStaked - (p1Out inp st).partTotal

/-- Pass-2 run of a call; skipped (all-zero credits) when
`newPoolTotalStake` is zero. -/
def p2Out (inp : EpochInput) (st : PoolState) :
    List StakedInfo × List Nat × List Nat :=
  if 0 < effStake inp st then
    pass2 (effStake inp st) (epochInSecs inp) inp.curTime
      (p1Out inp st).algoAvail (p1Out inp st).tokenAvail (p1Out inp st).slots
  else
    ((p1Out inp st).slots, List.replicate (p1Out inp st).slots.length 0,
     List.replicate (p1Out inp st).slots.length 0)

/-- Result of the early return (source line 899): nothing left for the
stakers, state untouched apart from `lastPayout`. -/
def earlyResult (inp : EpochInput) (st : PoolState) : EpochResult :=
  { newState := { st with lastPayout := inp.curTime },
    feeSinkPaid := feeSinkAmt inp st,
    validatorPaid := validatorCut inp st,
    validatorPaidTo := if 0 < validatorCut inp st then inp.validatorCommissionAddress else 0,
    algoAvailStart := 0,
    tokenAvailStart := 0,
    algoCreditsP1 := [], tokenCreditsP1 := [], algoCreditsP2 := [], tokenCreditsP2 := [],
    partTotal := 0, increasedStake := 0, tokenPaidOut := 0 }

/-- Result of a full run of both passes. -/
def mainResult (inp : EpochInput) (st : PoolState) : EpochResult :=
  { newState :=
      { st with
        stakers := (p2Out inp st).1,
        totalAlgoStaked :=
          st.totalAlgoStaked + ((p1Out inp st).algoCredits.sum + (p2Out inp st).2.1.sum),
        lastPayout := inp.curTime },
    feeSinkPaid := feeSinkAmt inp st,
    validatorPaid := validatorCut inp st,
    validatorPaidTo := if 0 < validatorCut inp st then inp.validatorCommissionAddress else 0,
    algoAvailStart := algoAvail1 inp st,
    tokenAvailStart := tokenAvail0 inp,
    algoCreditsP1 := (p1Out inp st).algoCredits,
    tokenCreditsP1 := (p1Out inp st).tokenCredits,
    algoCreditsP2 := (p2Out inp st).2.1,
    tokenCreditsP2 := (p2Out inp st).2.2,
    partTotal := (p1Out inp st).partTotal,
    increasedStake := (p1Out inp st).algoCredits.sum + (p2Out inp st).2.1.sum,
    tokenPaidOut := (p1Out inp st).tokenCredits.sum + (p2Out inp st).2.2.sum }

/-- StakingPool.epochBalanceUpdate: the epoch gate, the
reward-too-small assert, `lastPayout := now`, fee-sink or commission
payment, the early return when nothing is left, and the two allocation
passes. -/
def epochBalanceUpdate (inp : EpochInput) (st : PoolState) :
    Except PoolErr EpochResult :=
  if inp.curTime - st.lastPayout < epochInSecs inp then .error .epochTooEarly
  else if tokenAvail0 inp = 0 ∧ algoReward0 inp st ≤ 1000000 then .error .rewardTooSmall
  else if algoAvail1 inp st = 0 ∧ tokenAvail0 inp = 0 then .ok (earlyResult inp st)
  else .ok (mainResult inp st)

/-- Sequence of `epochBalanceUpdate` calls, threading the pool state. -/
def runEpochs : List EpochInput → PoolState → Except PoolErr PoolState
  | [], st => .ok st
  | inp :: rest, st =>
    match epochBalanceUpdate inp st with
    | .error e => .error e
    | .ok r => runEpochs rest r.newState

/-- Fit test used by the pool walks of `findPoolForStaker`:
`TotalAlgoStaked + amountToStake < maxPerPool`. -/
def poolRowFit (amount maxPerPool : Nat) (p : PoolInfoR) : Bool :=
  decide (p.totalAlgoStaked + amount < maxPerPool)

/-- Fit test used by the staker-pool-set walk of `findPoolForStaker`:
matching validator id and a fitting pool row. -/
def poolKeyFit (validatorID amount maxPerPool : Nat) (pools : List PoolInfoR)
    (k : ValidatorPoolKey) : Bool :=
  decide (k.id = validatorID) &&
    poolRowFit amount maxPerPool (pools.getD (k.poolID - 1) noPool)

/-! Concrete inputs used by witnesses and counterexamples. -/

/-- Pool with a ledger hole: staker 1 in slot 0, slot 1 empty, staker 2
in slot 2 (reachable by a middle staker unstaking fully). -/
def exC8State : PoolState :=
  ⟨1, 2, 12000000, 1000000, 100000000000, 0,
   [⟨1, 5000000, 0, 0, 100⟩, ⟨0, 0, 0, 0, 0⟩, ⟨2, 7000000, 0, 0, 100⟩]⟩

/-- Registry config with maxAlgoPerPool = 1000 and minAllowedStake = 100. -/
def exC2Config : ValidatorConfigR := ⟨7, 50000, 9, 100, 1000, 1, 1⟩

/-- Static pool array with pool 1 created (app id 1001, zero stake) and
47 unused rows. -/
def exC2Pools : List PoolInfoR := ⟨1, 1001, 0, 0⟩ :: List.replicate 47 noPool

/-- Valid registry config for the addValidator witness. -/
def exC9Config : ValidatorConfigR := ⟨7, 50000, 9, 1000000, 70000000000000, 3, 4⟩

/-- Registry config identical to `exC9Config` except
PercentToValidator = 1_000_000, the top of the range named by the
specification. -/
def exC9ConfigHighPct : ValidatorConfigR := ⟨7, 1000000, 9, 1000000, 70000000000000, 3, 4⟩

/-- Epoch input of the conservation counterexample: one-minute epochs,
zero commission, no token, reward pool 2000001, validator stake far
below the protocol cap. -/
def exC3Input : EpochInput := ⟨100, 1, 0, 77, 0, 0, 1000, 0, 2001001, 0, 0, 0, 100⟩

/-- Pool with a single staker who entered mid-epoch (entry 70, now 100,
epoch 60 seconds). -/
def exC3State : PoolState := ⟨1, 1, 1000, 100, 100000000000, 0, [⟨7, 1000, 0, 0, 70⟩]⟩

/-- Epoch input of the two-staker scenario: one-minute epochs, zero
commission, reward pool 100000000 on stake 2000000000. -/
def exC4Input : EpochInput :=
  ⟨1000, 1, 0, 77, 0, 0, 2000000000, 0, 2100000000, 0, 0, 0, 100⟩

/-- Pool with staker 11 in for a full epoch (entry 940) and staker 12 in
for half an epoch (entry 970), equal balances. -/
def exC4State : PoolState :=
  ⟨1, 2, 2000000000, 1000000, 100000000000, 0,
   [⟨11, 1000000000, 0, 0, 940⟩, ⟨12, 1000000000, 0, 0, 970⟩]⟩

/-- Epoch input with a five-percent commission (PercentToValidator =
50000), no token, reward pool 2000000. -/
def exC5Input : EpochInput :=
  ⟨1000, 1, 50000, 77, 0, 0, 2000000000, 0, 2002000000, 0, 0, 0, 100⟩

/-- Pool with one full-epoch staker, used by several witnesses. -/
def exC5State : PoolState :=
  ⟨1, 1, 2000000000, 1000000, 100000000000, 0, [⟨11, 2000000000, 0, 0, 940⟩]⟩

/-- Pool whose staker 5 has an empty reward-token balance and staker 6 a
positive one. -/
def exC10State : PoolState :=
  ⟨1, 2, 3000000, 1000000, 100000000000, 0,
   [⟨6, 2000000, 0, 400, 100⟩, ⟨5, 1000000, 0, 0, 100⟩]⟩

/-- Pool used by the removeStake witness: staker 9 holds 5000000 with
minimum entry stake 1000000. -/
def exC7State : PoolState :=
  ⟨1, 2, 8000000, 1000000, 100000000000, 0,
   [⟨4, 3000000, 0, 0, 100⟩, ⟨9, 5000000, 7, 11, 100⟩]⟩

/-- First index of a pool row fitting the amount, the specification-side
description of the `Pools`-array walk of `findPoolForStaker`. -/
def firstFitIdx (amount maxPerPool : Nat) : List PoolInfoR → Option Nat
  | [] => none
  | p :: rest =>
    if poolRowFit amount maxPerPool p then some 0
    else (firstFitIdx amount maxPerPool rest).map (· + 1)

/-- Variant of `exC2Pools` where pool 1 already holds 500: an amount of
700 does not fit pool 1 but "fits" the 47 uncreated all-zero rows. -/
def exC2PoolsB : List PoolInfoR := ⟨1, 1001, 1, 500⟩ :: List.replicate 47 noPool

/-- Epoch input arriving 30 seconds after the pool's last payout, before
the 60-second epoch elapses. -/
def exC6EarlyInput : EpochInput :=
  ⟨30, 1, 50000, 77, 0, 0, 2000000000, 0, 2002000000, 0, 0, 0, 100⟩

/-! Ledger-walk lemmas for the staker-indexed pool methods. -/

theorem removeStakeGo_notFound (minE sender amt : Nat) (L : List StakedInfo)
    (h : ∀ x ∈ L, x.account ≠ sender) :
    removeStakeGo minE sender amt L = .error .accountNotFound := by
  induction L with
  | nil => rfl
  | cons s rest ih =>
    have hs : s.account ≠ sender := h s (by simp)
    have ih' := ih (fun x hx => h x (by simp [hx]))
    simp [removeStakeGo, hs, ih']

theorem removeStakeGo_skip (minE sender amt : Nat) (pre rest : List StakedInfo)
    (hpre : ∀ x ∈ pre, x.account ≠ sender) :
    removeStakeGo minE sender amt (pre ++ rest) =
      match removeStakeGo minE sender amt rest with
      | .error e => .error e
      | .ok (l, a, t, b) => .ok (pre ++ l, a, t, b) := by
  induction pre with
  | nil =>
    simp only [List.nil_append]
    cases h : removeStakeGo minE sender amt rest with
    | error e => simp
    | ok v => obtain ⟨l, a, t, b⟩ := v; simp
  | cons s pre ih =>
    have hs : s.account ≠ sender := hpre s (by simp)
    have ih' := ih (fun x hx => hpre x (by simp [hx]))
    simp only [List.cons_append, removeStakeGo, if_neg hs, List.append_eq]
    rw [ih']
    cases removeStakeGo minE sender amt rest with
    | error e => rfl
    | ok v => obtain ⟨l, a, t, b⟩ := v; simp

theorem claimTokensGo_found_ok (sender : Nat) (L : List StakedInfo)
    (hx : ∃ x ∈ L, x.account = sender) :
    ∃ v, claimTokensGo sender L = .ok v := by
  induction L with
  | nil => simp at hx
  | cons s rest ih =>
    by_cases hs : s.account = sender
    · by_cases htok : s.rewardTokenBalance = 0
      · exact ⟨(s :: rest, none), by simp [claimTokensGo, hs, htok]⟩
      · exact ⟨({ s with rewardTokenBalance := 0 } :: rest, some s.rewardTokenBalance),
          by simp [claimTokensGo, hs, htok]⟩
    · have hrest : ∃ x ∈ rest, x.account = sender := by
        rcases hx with ⟨x, hxm, hxa⟩
        rcases List.mem_cons.mp hxm with h | h
        · exact absurd (h ▸ hxa) hs
        · exact ⟨x, h, hxa⟩
      rcases ih hrest with ⟨⟨l, t⟩, hv⟩
      exact ⟨(s :: l, t), by simp [claimTokensGo, hs, hv]⟩

theorem claimTokensGo_notFound (sender : Nat) (L : List StakedInfo)
    (h : ∀ x ∈ L, x.account ≠ sender) :
    claimTokensGo sender L = .error .accountNotFound := by
  induction L with
  | nil => rfl
  | cons s rest ih =>
    have hs : s.account ≠ sender := h s (by simp)
    have ih' := ih (fun x hx => h x (by simp [hx]))
    simp [claimTokensGo, hs, ih']

theorem claimTokensGo_skip (sender : Nat) (pre rest : List StakedInfo)
    (hpre : ∀ x ∈ pre, x.account ≠ sender) :
    claimTokensGo sender (pre ++ rest) =
      match claimTokensGo sender rest with
      | .error e => .error e
      | .ok (l, t) => .ok (pre ++ l, t) := by
  induction pre with
  | nil =>
    simp only [List.nil_append]
    cases h : claimTokensGo sender rest with
    | error e => simp
    | ok v => obtain ⟨l, t⟩ := v; simp
  | cons s pre ih =>
    have hs : s.account ≠ sender := hpre s (by simp)
    have ih' := ih (fun x hx => hpre x (by simp [hx]))
    simp only [List.cons_append, claimTokensGo, if_neg hs, List.append_eq]
    rw [ih']
    cases claimTokensGo sender rest with
    | error e => rfl
    | ok v => obtain ⟨l, t⟩ := v; simp

/-- C7: removeStake, called by the staker themself, treats
amountToUnstake = 0 as unstaking the full balance, fails with
InsufficientBalance when the staker's ledger balance is less than
amountToUnstake, fails with AccountNotFound when the caller has no
ledger slot, requires the residual balance to be 0 or at least
minEntryStake, and when the residual is 0 frees the slot and reports
stakerRemoved = true to the registry. -/
theorem C7_removeStake_contract (st : PoolState) (sender amt : Nat)
    (pre post : List StakedInfo) (s : StakedInfo)
    (hsplit : st.stakers = pre ++ s :: post)
    (hpre : ∀ x ∈ pre, x.account ≠ sender)
    (hs : s.account = sender) :
    removeStake st sender 0 = removeStake st sender s.balance
    ∧ (amt ≠ 0 → s.balance < amt →
        removeStake st sender amt = .error .insufficientBalance)
    ∧ (∀ st' msg, removeStake st sender amt = .ok (st', msg) →
        (s.balance - (if amt = 0 then s.balance else amt) = 0
          ∨ st.minEntryStake ≤ s.balance - (if amt = 0 then s.balance else amt))
        ∧ (s.balance - (if amt = 0 then s.balance else amt) = 0 →
            msg.stakerRemoved = true
            ∧ st'.stakers = pre ++ ⟨0, 0, 0, 0, s.entryTime⟩ :: post))
    ∧ (∀ (st2 : PoolState) (sender2 amt2 : Nat),
        (∀ x ∈ st2.stakers, x.account ≠ sender2) →
        removeStake st2 sender2 amt2 = .error .accountNotFound) := by
  have hskip := fun a => removeStakeGo_skip st.minEntryStake sender a pre (s :: post) hpre
  refine ⟨?_, ?_, ?_, ?_⟩
  · -- amount 0 is unstake-all
    unfold removeStake
    rw [hsplit, hskip 0, hskip s.balance]
    by_cases hb : s.balance = 0
    · simp [removeStakeGo, hs, hb]
    · simp [removeStakeGo, hs, hb]
  · -- insufficient balance
    intro hne hlt
    unfold removeStake
    rw [hsplit, hskip amt]
    simp [removeStakeGo, hs, hne, hlt]
  · -- successful run: residual invariant and slot freeing
    intro st' msg hok
    unfold removeStake at hok
    rw [hsplit, hskip amt] at hok
    simp only [removeStakeGo, if_pos hs] at hok
    have htok : (if 0 < s.rewardTokenBalance then s.rewardTokenBalance else 0)
        = s.rewardTokenBalance := by split_ifs with h <;> omega
    rw [htok] at hok
    generalize hu : (if amt = 0 then s.balance else amt) = u at hok ⊢
    split_ifs at hok with h1 h2 h3 <;>
      first
      | (simp at hok; done)
      | (simp only [Except.ok.injEq, Prod.mk.injEq] at hok
         obtain ⟨hst, hmsg⟩ := hok
         refine ⟨h2, fun hzero => ?_⟩
         first
         | exact absurd hzero h3
         | exact ⟨by simp [← hmsg], by simp [← hst]⟩)
  · -- account not found
    intro st2 sender2 amt2 hnone
    unfold removeStake
    rw [removeStakeGo_notFound st2.minEntryStake sender2 amt2 st2.stakers hnone]

/-- C7 witness: staker 9 unstakes everything from `exC7State`; the call
with amount 0 equals the call with the full balance, succeeds, frees the
slot and reports stakerRemoved. -/
theorem C7_removeStake_contract_witness :
    removeStake exC7State 9 0 = removeStake exC7State 9 5000000
    ∧ (okOf? (removeStake exC7State 9 0)).map
        (fun p => (p.1.stakers, p.2.stakerRemoved)) =
      some ([⟨4, 3000000, 0, 0, 100⟩, ⟨0, 0, 0, 0, 100⟩], true) := by
  have h := C7_removeStake_contract exC7State 9 0
    [⟨4, 3000000, 0, 0, 100⟩] [] ⟨9, 5000000, 7, 11, 100⟩ rfl (by decide) rfl
  exact ⟨h.1, by decide⟩

/-- C10: claimTokens with a ledger slot whose RewardTokenBalance is 0
returns successfully without modifying any pool state and without
notifying the registry; it fails with AccountNotFound exactly when the
caller has no ledger slot at all. -/
theorem C10_claimTokens_frame (st : PoolState) (sender : Nat) :
    (∀ pre post s, st.stakers = pre ++ s :: post →
      (∀ x ∈ pre, x.account ≠ sender) → s.account = sender →
      s.rewardTokenBalance = 0 →
      claimTokens st sender = .ok (st, none))
    ∧ (claimTokens st sender = .error .accountNotFound ↔
        ∀ x ∈ st.stakers, x.account ≠ sender) := by
  constructor
  · intro pre post s hsplit hpre hacct htok
    unfold claimTokens
    rw [hsplit, claimTokensGo_skip sender pre (s :: post) hpre]
    simp [claimTokensGo, hacct, htok]
  · constructor
    · intro herr x hx hxs
      rcases claimTokensGo_found_ok sender st.stakers ⟨x, hx, hxs⟩ with ⟨⟨l, t⟩, hv⟩
      unfold claimTokens at herr
      rw [hv] at herr
      cases t <;> simp at herr
    · intro hnone
      unfold claimTokens
      rw [claimTokensGo_notFound sender st.stakers hnone]

/-- C10 witness: staker 5 of `exC10State` has a slot with zero token
balance; claimTokens is a successful no-op, and the pool without staker
5 yields AccountNotFound for them. -/
theorem C10_claimTokens_frame_witness :
    claimTokens exC10State 5 = .ok (exC10State, none) := by
  exact (C10_claimTokens_frame exC10State 5).1 [⟨6, 2000000, 0, 400, 100⟩] []
    ⟨5, 1000000, 0, 0, 100⟩ rfl (by decide) rfl rfl

/-- C8: the pool `addStake` loop breaks at the first empty slot, so a
staker whose existing slot sits after a ledger hole is treated as new.
In `exC8State`, staker 2 holds exactly one slot, but after `addStake`
they hold two and NumStakers is double-counted at 3 — violating the
one-slot-per-staker invariant the claim states. -/
theorem C8_double_slot :
    exC8State.stakers.countP (fun x => x.account == 2) = 1
    ∧ (okOf? (addStake exC8State 2 2000000 500)).map
        (fun s => (s.stakers.countP (fun x => x.account == 2), s.numStakers)) =
      some (2, 3) := by
  exact ⟨by decide, by decide⟩

/-- C9 counterexample: PercentToValidator = 1_000_000 lies in the range
[MIN_PCT_TO_VALIDATOR, 1_000_000] named by the claim, owner and manager
are non-zero and every other field is in bounds, yet addValidator
rejects the config: the registry's MAX_PCT_TO_VALIDATOR is 100000. -/
theorem C9_pct_range_cex :
    10000 ≤ exC9ConfigHighPct.percentToValidator
    ∧ exC9ConfigHighPct.percentToValidator ≤ 1000000
    ∧ addValidator 1000000 70000000000000 5 1 2 exC9ConfigHighPct = .error .invalidConfig := by
  exact ⟨by decide, by decide, rfl⟩

/-- C9 (amended): addValidator succeeds with id numValidators + 1 exactly
for configs passing validateConfig — whose pctToValidator range is
[10000, 100000], not [10000, 1_000_000] — with non-zero owner and
manager, and fails on any bound violation or zero owner/manager. -/
theorem C9_addValidator_amended (minC maxC n owner manager : Nat) (c : ValidatorConfigR) :
    (validateConfig minC maxC c = true ↔
      (1 ≤ c.payoutEveryXDays ∧ c.payoutEveryXDays ≤ 30
        ∧ 10000 ≤ c.percentToValidator ∧ c.percentToValidator ≤ 100000
        ∧ c.validatorCommissionAddress ≠ 0
        ∧ minC ≤ c.minAllowedStake ∧ c.maxAlgoPerPool ≤ maxC
        ∧ 0 < c.poolsPerNode ∧ c.poolsPerNode ≤ 4
        ∧ 0 < c.maxNodes ∧ c.maxNodes ≤ 12))
    ∧ (owner ≠ 0 → manager ≠ 0 → validateConfig minC maxC c = true →
        addValidator minC maxC n owner manager c = .ok (n + 1, n + 1))
    ∧ (owner = 0 ∨ manager = 0 ∨ validateConfig minC maxC c = false →
        okOf? (addValidator minC maxC n owner manager c) = none) := by
  refine ⟨?_, ?_, ?_⟩
  · simp only [validateConfig, Bool.and_eq_true, decide_eq_true_eq]
    tauto
  · intro ho hm hv
    unfold addValidator
    rw [if_neg ho, if_neg hm, if_pos hv]
  · intro h
    unfold addValidator
    split_ifs with h1 h2 h3 <;> simp_all [okOf?]

/-- C9 witness: a fully in-bounds config with non-zero owner and manager
is accepted and assigned id 6 when numValidators = 5. -/
theorem C9_addValidator_amended_witness :
    addValidator 1000000 70000000000000 5 1 2 exC9Config = .ok (6, 6) :=
  (C9_addValidator_amended 1000000 70000000000000 5 1 2 exC9Config).2.1
    (by decide) (by decide) (by decide)

/-! Characterization of the two walks of findPoolForStaker. -/

theorem findInPoolSet_eq_find? (v a m : Nat) (pools : List PoolInfoR)
    (ks : List ValidatorPoolKey) :
    findInPoolSet v a m pools ks = ks.find? (poolKeyFit v a m pools) := by
  induction ks with
  | nil => rfl
  | cons k rest ih =>
    by_cases h1 : k.id = v
    · by_cases h2 : (pools.getD (k.poolID - 1) noPool).totalAlgoStaked + a < m
      · have hfit : poolKeyFit v a m pools k = true := by
          simp only [poolKeyFit, poolRowFit, Bool.and_eq_true, decide_eq_true_eq]
          exact ⟨h1, h2⟩
        rw [List.find?_cons_of_pos _ hfit]
        simp only [findInPoolSet, if_pos h1, if_pos h2]
      · have hfit : ¬ poolKeyFit v a m pools k = true := by
          simp only [poolKeyFit, poolRowFit, Bool.and_eq_true, decide_eq_true_eq]
          exact fun hcon => h2 hcon.2
        rw [List.find?_cons_of_neg _ hfit, ← ih]
        simp only [findInPoolSet, if_pos h1, if_neg h2]
    · have hfit : ¬ poolKeyFit v a m pools k = true := by
        simp only [poolKeyFit, poolRowFit, Bool.and_eq_true, decide_eq_true_eq]
        exact fun hcon => h1 hcon.1
      rw [List.find?_cons_of_neg _ hfit, ← ih]
      simp only [findInPoolSet, if_neg h1]

theorem scanAllPools_eq_firstFitIdx (v a m : Nat) (l : List PoolInfoR) (i : Nat) :
    scanAllPools v a m l i =
      match firstFitIdx a m l with
      | some j => ⟨v, i + j + 1, (l.getD j noPool).poolAppID⟩
      | none => ⟨v, 0, 0⟩ := by
  induction l generalizing i with
  | nil => rfl
  | cons p rest ih =>
    by_cases h : p.totalAlgoStaked + a < m
    · have hfit : poolRowFit a m p = true := by simp [poolRowFit, h]
      simp only [scanAllPools, firstFitIdx, if_pos h, if_pos hfit, List.getD_cons_zero]
    · have hfit : ¬ poolRowFit a m p = true := by simp [poolRowFit, h]
      simp only [scanAllPools, firstFitIdx, if_neg h, if_neg hfit]
      rw [ih (i + 1)]
      cases hfi : firstFitIdx a m rest with
      | none => rfl
      | some j =>
        simp only [Option.map_some']
        have harith : i + 1 + j + 1 = i + (j + 1) + 1 := by omega
        rw [harith, List.getD_cons_succ]

/-- C2 (amended): findPoolForStaker is deterministic; with an existing
StakerPoolSet it returns the first entry whose validator matches and
whose pool row fits the amount STRICTLY below maxAlgoPerPool; otherwise,
after the minimum-entry assert, it walks the WHOLE static Pools array
(all 48 rows, created or not) and returns the first strictly fitting
row, 1-indexed; and if no row fits it returns the sentinel
(validatorId, 0, 0). -/
theorem C2_findPool_amended (cfg : ValidatorConfigR) (pools : List PoolInfoR)
    (v a : Nat) :
    (∀ ps k, List.find? (poolKeyFit v a cfg.maxAlgoPerPool pools) ps = some k →
        findPoolForStaker cfg pools (some ps) v a = .ok k)
    ∧ (∀ ps : Option (List ValidatorPoolKey),
        (ps = none ∨
          ∃ l, ps = some l ∧ List.find? (poolKeyFit v a cfg.maxAlgoPerPool pools) l = none) →
        (a < cfg.minAllowedStake →
          findPoolForStaker cfg pools ps v a = .error .belowMinEntry)
        ∧ (cfg.minAllowedStake ≤ a →
          findPoolForStaker cfg pools ps v a =
            .ok (match firstFitIdx a cfg.maxAlgoPerPool pools with
                 | some j => ⟨v, j + 1, (pools.getD j noPool).poolAppID⟩
                 | none => ⟨v, 0, 0⟩))) := by
  constructor
  · intro ps k hfind
    simp only [findPoolForStaker]
    rw [findInPoolSet_eq_find?, hfind]
  · intro ps hmiss
    have hnone : ∀ l, ps = some l →
        findInPoolSet v a cfg.maxAlgoPerPool pools l = none := by
      intro l hl
      rcases hmiss with h | ⟨l2, hl2, hfind⟩
      · rw [h] at hl; cases hl
      · rw [hl2] at hl
        cases hl
        rw [findInPoolSet_eq_find?]
        exact hfind
    constructor
    · intro hlt
      cases ps with
      | none => simp only [findPoolForStaker]; rw [if_pos hlt]
      | some l =>
        simp only [findPoolForStaker]
        rw [hnone l rfl, if_pos hlt]
    · intro hge
      have hnlt : ¬ a < cfg.minAllowedStake := by omega
      have hscan := scanAllPools_eq_firstFitIdx v a cfg.maxAlgoPerPool pools 0
      cases ps with
      | none =>
        simp only [findPoolForStaker]
        rw [if_neg hnlt, hscan]
        cases firstFitIdx a cfg.maxAlgoPerPool pools with
        | none => rfl
        | some j => simp
      | some l =>
        simp only [findPoolForStaker]
        rw [hnone l rfl, if_neg hnlt, hscan]
        cases firstFitIdx a cfg.maxAlgoPerPool pools with
        | none => rfl
        | some j => simp

/-- C2 witness: with no StakerPoolSet, an amount of 500 against
`exC2Pools` (pool 1 empty, cap 1000) lands in pool 1 with its app id. -/
theorem C2_findPool_amended_witness :
    findPoolForStaker exC2Config exC2Pools none 1 500 = .ok ⟨1, 1, 1001⟩ := by
  have h := ((C2_findPool_amended exC2Config exC2Pools 1 500).2 none (Or.inl rfl)).2
    (by decide)
  rw [h]
  rfl

/-- C2 counterexample: pool 1 of `exC2Pools` satisfies the claim's fit
test totalAlgoStaked + amount ≤ maxAlgoPerPool at amount 1000, yet
findPoolForStaker returns the sentinel (the code uses strict <); and on
`exC2PoolsB` the walk continues past the single created pool into the
uncreated all-zero rows, returning poolID 2 with poolAppID 0 instead of
the claim's sentinel. -/
theorem C2_findPool_cex :
    (exC2Pools.getD 0 noPool).totalAlgoStaked + 1000 ≤ exC2Config.maxAlgoPerPool
    ∧ exC2Config.minAllowedStake ≤ 1000
    ∧ findPoolForStaker exC2Config exC2Pools none 1 1000 = .ok ⟨1, 0, 0⟩
    ∧ findPoolForStaker exC2Config exC2PoolsB none 1 700 = .ok ⟨1, 2, 0⟩ := by
  exact ⟨by decide, by decide, rfl, rfl⟩

/-! Epoch-gate lemmas for C6. -/

theorem epochStep_lastPayout (inp : EpochInput) (st : PoolState) (r : EpochResult)
    (hok : epochBalanceUpdate inp st = .ok r) :
    r.newState.lastPayout = inp.curTime
    ∧ epochInSecs inp ≤ inp.curTime - st.lastPayout := by
  unfold epochBalanceUpdate at hok
  split_ifs at hok with h1 h2 h3
  · simp only [Except.ok.injEq] at hok
    subst hok
    exact ⟨rfl, by omega⟩
  · simp only [Except.ok.injEq] at hok
    subst hok
    exact ⟨rfl, by omega⟩

theorem runEpochs_lastPayout_lt (inps : List EpochInput) :
    ∀ (st st' : PoolState), (∀ i ∈ inps, 0 < epochInSecs i) → inps ≠ [] →
      runEpochs inps st = .ok st' → st.lastPayout < st'.lastPayout := by
  induction inps with
  | nil => intro st st' _ hne; exact absurd rfl hne
  | cons inp rest ih =>
    intro st st' hall _ hrun
    unfold runEpochs at hrun
    cases heq : epochBalanceUpdate inp st with
    | error e => rw [heq] at hrun; simp at hrun
    | ok r =>
      rw [heq] at hrun
      have hstep := epochStep_lastPayout inp st r heq
      have hpos : 0 < epochInSecs inp := hall inp (by simp)
      have hlt : st.lastPayout < r.newState.lastPayout := by
        rw [hstep.1]
        have := hstep.2
        omega
      cases rest with
      | nil =>
        simp only [runEpochs, Except.ok.injEq] at hrun
        subst hrun
        exact hlt
      | cons i2 r2 =>
        exact hlt.trans (ih r.newState st' (fun i hi => hall i (by simp [hi]))
          (by simp) hrun)

/-- C6: across successful epochBalanceUpdate calls lastPayout is strictly
increasing; every call with now - lastPayout < epochSecs fails with
EpochTooEarly; and a successful call records lastPayout = now while
requiring a full epoch since the prior lastPayout. -/
theorem C6_lastPayout_monotone :
    (∀ (inp : EpochInput) (st : PoolState),
        inp.curTime - st.lastPayout < epochInSecs inp →
        epochBalanceUpdate inp st = .error .epochTooEarly)
    ∧ (∀ (inp : EpochInput) (st : PoolState) (r : EpochResult),
        epochBalanceUpdate inp st = .ok r →
        r.newState.lastPayout = inp.curTime
        ∧ epochInSecs inp ≤ inp.curTime - st.lastPayout
        ∧ (0 < epochInSecs inp → st.lastPayout < r.newState.lastPayout))
    ∧ (∀ (inps : List EpochInput) (st st' : PoolState),
        (∀ i ∈ inps, 0 < epochInSecs i) → inps ≠ [] →
        runEpochs inps st = .ok st' → st.lastPayout < st'.lastPayout) := by
  refine ⟨?_, ?_, ?_⟩
  · intro inp st h
    unfold epochBalanceUpdate
    rw [if_pos h]
  · intro inp st r hok
    have h := epochStep_lastPayout inp st r hok
    exact ⟨h.1, h.2, fun hpos => by rw [h.1]; have := h.2; omega⟩
  · intro inps st st' hall hne hrun
    exact runEpochs_lastPayout_lt inps st st' hall hne hrun

/-- C6 witness: a call 30 seconds after lastPayout = 0 with one-minute
epochs fails EpochTooEarly; the successful call at t = 1000 records
lastPayout 1000, strictly above the prior 0. -/
theorem C6_lastPayout_monotone_witness :
    epochBalanceUpdate exC6EarlyInput exC5State = .error .epochTooEarly
    ∧ (mainResult exC5Input exC5State).newState.lastPayout = 1000
    ∧ exC5State.lastPayout < (mainResult exC5Input exC5State).newState.lastPayout := by
  have h := C6_lastPayout_monotone
  refine ⟨h.1 exC6EarlyInput exC5State (by decide), ?_, ?_⟩
  · exact (h.2.1 exC5Input exC5State (mainResult exC5Input exC5State) rfl).1
  · exact (h.2.1 exC5Input exC5State (mainResult exC5Input exC5State) rfl).2.2 (by decide)

/-! Arithmetic facts about the credit formulas. -/

theorem wideRatio_two (a b d : Nat) : wideRatio [a, b] [d] = a * b / d := by
  simp [wideRatio, Nat.mul_assoc]

theorem wideRatio_three (a b c d e : Nat) :
    wideRatio [a, b, c] [d, e] = a * b * c / (d * e) := by
  simp [wideRatio, Nat.mul_assoc]

theorem timePct_le_999 (t e : Nat) (h : t < e) : t * 1000 / e ≤ 999 := by
  have he : 0 < e := by omega
  have h2 : t * 1000 / e < 1000 := by
    rw [Nat.div_lt_iff_lt_mul he]
    omega
  omega

theorem partCredit_nonpart (S e cur A : Nat) (s : StakedInfo)
    (h : partScope e cur s = false) : partCredit S e cur A s = 0 := by
  unfold partCredit
  split_ifs with h1 h2 h3 h4 <;> try rfl
  exfalso
  have hT : partScope e cur s = true := by simp [partScope, h1, h3]
  rw [hT] at h
  cases h

theorem partCredit_mul_bound (S e cur A : Nat) (s : StakedInfo) :
    partCredit S e cur A s * (S * 1000) ≤ s.balance * A * 999 := by
  unfold partCredit
  split_ifs with h1 h2 h3 h4
  · simp
  · simp
  · rw [wideRatio_three]
    calc s.balance * A * ((cur - s.entryTime) * 1000 / e) / (S * 1000) * (S * 1000)
        ≤ s.balance * A * ((cur - s.entryTime) * 1000 / e) :=
          Nat.div_mul_le_self _ _
      _ ≤ s.balance * A * 999 :=
          Nat.mul_le_mul_left _ (timePct_le_999 _ _ h3)
  · simp
  · simp

theorem partCredit_le_avail (S e cur A : Nat) (s : StakedInfo)
    (hb : s.balance ≤ S) : partCredit S e cur A s ≤ A := by
  rcases Nat.eq_zero_or_pos S with hS | hS
  · unfold partCredit
    split_ifs with h1 h2 h3 h4 <;> simp [wideRatio_three, hS]
  · have h := partCredit_mul_bound S e cur A s
    have h2 : s.balance * A * 999 ≤ A * (S * 1000) := by
      calc s.balance * A * 999 ≤ S * A * 999 :=
            Nat.mul_le_mul_right _ (Nat.mul_le_mul_right _ hb)
        _ = A * (S * 999) := by ring
        _ ≤ A * (S * 1000) := Nat.mul_le_mul_left _ (by omega)
    have := le_trans h h2
    exact Nat.le_of_mul_le_mul_right this (by positivity)

/-! Structural lemmas about the pass-1 stream. -/

theorem stream_length (S e cur : Nat) (L : List StakedInfo) (A : Nat) :
    (stream S e cur L A).1.length = L.length := by
  induction L generalizing A with
  | nil => rfl
  | cons s rest ih => simp [stream, ih]

theorem stream_avail (S e cur : Nat) (L : List StakedInfo) (A : Nat) :
    (stream S e cur L A).2 = A - (stream S e cur L A).1.sum := by
  induction L generalizing A with
  | nil => simp [stream]
  | cons s rest ih =>
    simp only [stream, List.sum_cons]
    rw [ih]
    omega

theorem stream_sum_le (S e cur : Nat) (L : List StakedInfo) (A : Nat)
    (hb : ∀ s ∈ L, s.balance ≤ S) : (stream S e cur L A).1.sum ≤ A := by
  induction L generalizing A with
  | nil => simp [stream]
  | cons s rest ih =>
    simp only [stream, List.sum_cons]
    have hc : partCredit S e cur A s ≤ A :=
      partCredit_le_avail S e cur A s (hb s (by simp))
    have hrest := ih (A - partCredit S e cur A s) (fun x hx => hb x (by simp [hx]))
    omega

theorem stream_getD (S e cur : Nat) (L : List StakedInfo) (A : Nat) (i : Nat)
    (hi : i < L.length) :
    (stream S e cur L A).1.getD i 0 =
      partCredit S e cur (A - ((stream S e cur L A).1.take i).sum) (L.getD i noSlot) := by
  induction L generalizing A i with
  | nil => simp at hi
  | cons s rest ih =>
    cases i with
    | zero => simp [stream]
    | succ i =>
      simp only [stream, List.getD_cons_succ, List.take_succ_cons, List.sum_cons]
      rw [ih (A - partCredit S e cur A s) i (by simpa using hi)]
      congr 1
      omega

theorem stream_append (S e cur : Nat) (L1 L2 : List StakedInfo) (A : Nat) :
    stream S e cur (L1 ++ L2) A =
      ((stream S e cur L1 A).1 ++ (stream S e cur L2 (stream S e cur L1 A).2).1,
       (stream S e cur L2 (stream S e cur L1 A).2).2) := by
  induction L1 generalizing A with
  | nil => simp [stream]
  | cons s rest ih =>
    simp only [List.cons_append, stream, List.append_eq, ih]

theorem stream_zero_avail (S e cur : Nat) (L : List StakedInfo) :
    stream S e cur L 0 = (List.replicate L.length 0, 0) := by
  induction L with
  | nil => rfl
  | cons s rest ih =>
    have hc : partCredit S e cur 0 s = 0 := by
      unfold partCredit
      split_ifs <;> first | rfl | omega
    simp [stream, hc, ih, List.replicate_succ]

theorem stream_suffix_bound (S e cur : Nat) (L : List StakedInfo) (A : Nat)
    (hb : ∀ s ∈ L, s.balance ≤ S) :
    A * (S * 1000) ≤
      (stream S e cur L A).2 * (S * 1000) + 999 * A * partStakeSum e cur L := by
  induction L generalizing A with
  | nil => simp [stream, partStakeSum]
  | cons s rest ih =>
    simp only [stream, partStakeSum]
    set c := partCredit S e cur A s with hc
    have hcA : c ≤ A := partCredit_le_avail S e cur A s (hb s (by simp))
    have hIH := ih (A - c) (fun x hx => hb x (by simp [hx]))
    by_cases hpart : partScope e cur s = true
    · have hcb : c * (S * 1000) ≤ s.balance * A * 999 := partCredit_mul_bound S e cur A s
      have hstep : A * (S * 1000) = (A - c) * (S * 1000) + c * (S * 1000) := by
        rw [← Nat.add_mul]
        congr 1
        omega
      rw [if_pos hpart]
      calc A * (S * 1000)
          = (A - c) * (S * 1000) + c * (S * 1000) := hstep
        _ ≤ ((stream S e cur rest (A - c)).2 * (S * 1000)
              + 999 * (A - c) * partStakeSum e cur rest) + c * (S * 1000) :=
            Nat.add_le_add_right hIH _
        _ ≤ ((stream S e cur rest (A - c)).2 * (S * 1000)
              + 999 * A * partStakeSum e cur rest) + s.balance * A * 999 :=
            Nat.add_le_add
              (Nat.add_le_add_left
                (Nat.mul_le_mul_right _ (Nat.mul_le_mul_left _ (Nat.sub_le _ _))) _)
              hcb
        _ = (stream S e cur rest (A - c)).2 * (S * 1000)
              + 999 * A * (s.balance + partStakeSum e cur rest) := by ring
    · have hp : partScope e cur s = false := by
        cases h : partScope e cur s
        · rfl
        · exact absurd h hpart
      have hc0 : c = 0 := partCredit_nonpart S e cur A s hp
      rw [if_neg (by simp [hp])]
      rw [hc0] at hIH ⊢
      simpa using hIH

/-! Bridges between pass 1 and its single-stream decomposition. -/

theorem pass1_algo (S e cur : Nat) (L : List StakedInfo) (a t : Nat) :
    (pass1 S e cur L a t).algoCredits = (stream S e cur L a).1
    ∧ (pass1 S e cur L a t).algoAvail = (stream S e cur L a).2 := by
  induction L generalizing a t with
  | nil => exact ⟨rfl, rfl⟩
  | cons s rest ih =>
    simp only [pass1, stream]
    exact ⟨by rw [(ih _ _).1], (ih _ _).2⟩

theorem pass1_token (S e cur : Nat) (L : List StakedInfo) (a t : Nat) :
    (pass1 S e cur L a t).tokenCredits = (stream S e cur L t).1
    ∧ (pass1 S e cur L a t).tokenAvail = (stream S e cur L t).2 := by
  induction L generalizing a t with
  | nil => exact ⟨rfl, rfl⟩
  | cons s rest ih =>
    simp only [pass1, stream]
    exact ⟨by rw [(ih _ _).1], (ih _ _).2⟩

theorem pass1_partTotal (S e cur : Nat) (L : List StakedInfo) (a t : Nat) :
    (pass1 S e cur L a t).partTotal = partStakeSum e cur L := by
  induction L generalizing a t with
  | nil => rfl
  | cons s rest ih =>
    simp only [pass1, partStakeSum, ih]
    omega

theorem pass1_slots_shape (S e cur : Nat) (L : List StakedInfo) (a t : Nat) :
    (pass1 S e cur L a t).slots.length = L.length
    ∧ ∀ i, i < L.length →
      (pass1 S e cur L a t).slots.getD i noSlot =
        updateSlot (L.getD i noSlot)
          ((pass1 S e cur L a t).algoCredits.getD i 0)
          ((pass1 S e cur L a t).tokenCredits.getD i 0) := by
  induction L generalizing a t with
  | nil => exact ⟨rfl, by intro i hi; simp at hi⟩
  | cons s rest ih =>
    constructor
    · simp [pass1, (ih (a - partCredit S e cur a s) (t - partCredit S e cur t s)).1]
    · intro i hi
      cases i with
      | zero => simp [pass1]
      | succ i =>
        simp only [pass1, List.getD_cons_succ]
        exact (ih _ _).2 i (by simpa using hi)

theorem pass1_balances_zeroAvail (S e cur t : Nat) (L : List StakedInfo) :
    (pass1 S e cur L 0 t).slots.map (fun s => s.balance)
      = L.map (fun s => s.balance) := by
  induction L generalizing t with
  | nil => rfl
  | cons s rest ih =>
    have hc : partCredit S e cur 0 s = 0 := by
      unfold partCredit
      split_ifs <;> first | rfl | omega
    simp [pass1, hc, updateSlot, ih]

/-! Structural lemmas about pass 2. -/

theorem pass2_shape (E e cur aA tA : Nat) (L : List StakedInfo) :
    (pass2 E e cur aA tA L).1.length = L.length
    ∧ (pass2 E e cur aA tA L).2.1.length = L.length
    ∧ (pass2 E e cur aA tA L).2.2.length = L.length := by
  induction L with
  | nil => exact ⟨rfl, rfl, rfl⟩
  | cons s rest ih => simp [pass2, ih.1, ih.2.1, ih.2.2]

theorem pass2_getD (E e cur aA tA : Nat) (L : List StakedInfo) (i : Nat)
    (hi : i < L.length) :
    (pass2 E e cur aA tA L).2.1.getD i 0 = fullCredit E e cur aA (L.getD i noSlot)
    ∧ (pass2 E e cur aA tA L).2.2.getD i 0 = fullCredit E e cur tA (L.getD i noSlot)
    ∧ (pass2 E e cur aA tA L).1.getD i noSlot =
        updateSlot (L.getD i noSlot)
          (fullCredit E e cur aA (L.getD i noSlot))
          (fullCredit E e cur tA (L.getD i noSlot)) := by
  induction L generalizing i with
  | nil => simp at hi
  | cons s rest ih =>
    cases i with
    | zero => simp [pass2]
    | succ i =>
      simp only [pass2, List.getD_cons_succ]
      exact ih i (by simpa using hi)

theorem pass2_balances_zeroAvail (E e cur tA : Nat) (L : List StakedInfo) :
    (pass2 E e cur 0 tA L).1.map (fun s => s.balance)
      = L.map (fun s => s.balance) := by
  induction L with
  | nil => rfl
  | cons s rest ih =>
    have hc : fullCredit E e cur 0 s = 0 := by
      unfold fullCredit
      split_ifs <;> first | rfl | omega
    simp [pass2, hc, updateSlot, ih]

theorem fullCredit_mul_le (E e cur A : Nat) (s : StakedInfo) :
    fullCredit E e cur A s * E ≤ (if fullScope e cur s then s.balance else 0) * A := by
  unfold fullCredit
  split_ifs with h1 h2
  · rw [wideRatio_two]
    calc s.balance * A / E * E ≤ s.balance * A := Nat.div_mul_le_self _ _
      _ = s.balance * A := rfl
  · simp
  · simp

theorem fullCredit_lower (E e cur A : Nat) (s : StakedInfo) (hE : 0 < E) :
    (if fullScope e cur s then s.balance else 0) * A ≤
      fullCredit E e cur A s * E + (if fullScope e cur s then 1 else 0) * E := by
  unfold fullCredit
  split_ifs with h1 h2
  · rw [wideRatio_two]
    have hmod := Nat.div_add_mod (s.balance * A) E
    have hlt : s.balance * A % E < E := Nat.mod_lt _ hE
    calc s.balance * A = E * (s.balance * A / E) + s.balance * A % E := hmod.symm
      _ ≤ s.balance * A / E * E + 1 * E := by
          rw [Nat.mul_comm E (s.balance * A / E)]
          omega
  · have hA : A = 0 := by omega
    simp [hA]
  · simp

theorem pass2_algo_sum_le (E e cur aA tA : Nat) (L : List StakedInfo) :
    (pass2 E e cur aA tA L).2.1.sum * E ≤ fullStakeSum e cur L * aA := by
  induction L with
  | nil => simp [pass2, fullStakeSum]
  | cons s rest ih =>
    simp only [pass2, List.sum_cons, fullStakeSum]
    calc (fullCredit E e cur aA s + (pass2 E e cur aA tA rest).2.1.sum) * E
        = fullCredit E e cur aA s * E + (pass2 E e cur aA tA rest).2.1.sum * E := by ring
      _ ≤ (if fullScope e cur s then s.balance else 0) * aA + fullStakeSum e cur rest * aA :=
          Nat.add_le_add (fullCredit_mul_le E e cur aA s) ih
      _ = ((if fullScope e cur s then s.balance else 0) + fullStakeSum e cur rest) * aA := by
          ring

theorem pass2_algo_sum_lower (E e cur aA tA : Nat) (L : List StakedInfo) (hE : 0 < E) :
    fullStakeSum e cur L * aA ≤
      (pass2 E e cur aA tA L).2.1.sum * E + L.countP (fullScope e cur) * E := by
  induction L with
  | nil => simp [pass2, fullStakeSum]
  | cons s rest ih =>
    simp only [pass2, List.sum_cons, fullStakeSum, List.countP_cons]
    have hslot := fullCredit_lower E e cur aA s hE
    by_cases h : fullScope e cur s = true
    · simp only [if_pos h] at hslot ⊢
      calc (s.balance + fullStakeSum e cur rest) * aA
          = s.balance * aA + fullStakeSum e cur rest * aA := by ring
        _ ≤ (fullCredit E e cur aA s * E + 1 * E)
              + ((pass2 E e cur aA tA rest).2.1.sum * E + rest.countP (fullScope e cur) * E) :=
            Nat.add_le_add hslot ih
        _ = (fullCredit E e cur aA s + (pass2 E e cur aA tA rest).2.1.sum) * E
              + (rest.countP (fullScope e cur) + 1) * E := by ring
    · simp only [if_neg h, Nat.add_zero, Nat.zero_add] at hslot ⊢
      calc fullStakeSum e cur rest * aA
          ≤ (pass2 E e cur aA tA rest).2.1.sum * E + rest.countP (fullScope e cur) * E := ih
        _ ≤ (fullCredit E e cur aA s * E + (pass2 E e cur aA tA rest).2.1.sum * E)
              + rest.countP (fullScope e cur) * E := by omega
        _ = (fullCredit E e cur aA s + (pass2 E e cur aA tA rest).2.1.sum) * E
              + rest.countP (fullScope e cur) * E := by ring

/-! Scope partition of a well-formed ledger. -/

theorem partScope_of_full (e cur : Nat) (s : StakedInfo) (he : 0 < e)
    (hfull : e ≤ cur - s.entryTime) : partScope e cur s = false := by
  simp only [partScope, Bool.and_eq_false_iff, Bool.or_eq_false_iff,
    decide_eq_false_iff_not]
  right
  omega

theorem fullScope_true_iff (e cur : Nat) (s : StakedInfo) (he : 0 < e) :
    fullScope e cur s = true ↔ s.account ≠ 0 ∧ e ≤ cur - s.entryTime := by
  simp only [fullScope, Bool.and_eq_true, decide_eq_true_eq]
  omega

theorem part_full_split (e cur : Nat) (L : List StakedInfo) (he : 0 < e)
    (hz : ∀ s ∈ L, s.account = 0 → s.balance = 0) :
    partStakeSum e cur L + fullStakeSum e cur L = (L.map (fun s => s.balance)).sum := by
  induction L with
  | nil => rfl
  | cons s rest ih =>
    have ih' := ih (fun x hx => hz x (by simp [hx]))
    simp only [partStakeSum, fullStakeSum, List.map_cons, List.sum_cons]
    by_cases hacct : s.account = 0
    · have hb : s.balance = 0 := hz s (by simp) hacct
      have hp : partScope e cur s = false := by simp [partScope, hacct]
      have hf : fullScope e cur s = false := by simp [fullScope, hacct]
      rw [hp, hf]
      simp [hb]
      omega
    · by_cases hfull : e ≤ cur - s.entryTime
      · have hp := partScope_of_full e cur s he hfull
        have hf : fullScope e cur s = true :=
          (fullScope_true_iff e cur s he).mpr ⟨hacct, hfull⟩
        rw [hp, hf]
        simp only [if_false, if_true, Bool.false_eq_true, if_neg]
        omega
      · have hp : partScope e cur s = true := by
          simp only [partScope, Bool.and_eq_true, Bool.or_eq_true, decide_eq_true_eq]
          omega
        have hf : fullScope e cur s = false := by
          cases hx : fullScope e cur s
          · rfl
          · exact absurd (((fullScope_true_iff e cur s he).mp hx).2) hfull
        rw [hp, hf]
        simp only [if_true, if_false, Bool.false_eq_true, if_neg]
        omega

theorem partStakeSum_append (e cur : Nat) (l1 l2 : List StakedInfo) :
    partStakeSum e cur (l1 ++ l2) = partStakeSum e cur l1 + partStakeSum e cur l2 := by
  induction l1 with
  | nil => simp [partStakeSum]
  | cons s rest ih => simp [partStakeSum, ih]; omega

theorem fullStake_ge_slot (e cur : Nat) (L : List StakedInfo) (i : Nat)
    (hi : i < L.length) (hfull : fullScope e cur (L.getD i noSlot) = true) :
    (L.getD i noSlot).balance ≤ fullStakeSum e cur L := by
  induction L generalizing i with
  | nil => simp at hi
  | cons s rest ih =>
    cases i with
    | zero =>
      simp only [List.getD_cons_zero] at hfull ⊢
      simp only [fullStakeSum, hfull, if_true]
      omega
    | succ i =>
      simp only [List.getD_cons_succ] at hfull ⊢
      have := ih i (by simpa using hi) hfull
      simp only [fullStakeSum]
      omega

theorem balance_le_sum (L : List StakedInfo) (s : StakedInfo) (hs : s ∈ L) :
    s.balance ≤ (L.map (fun x => x.balance)).sum :=
  List.single_le_sum (fun x _ => Nat.zero_le x) _
    (List.mem_map_of_mem (fun x => x.balance) hs)

theorem partStakeSum_le_sum (e cur : Nat) (L : List StakedInfo) :
    partStakeSum e cur L ≤ (L.map (fun s => s.balance)).sum := by
  induction L with
  | nil => simp [partStakeSum]
  | cons s rest ih =>
    simp only [partStakeSum, List.map_cons, List.sum_cons]
    split_ifs <;> omega

/-! Branch analysis of a successful epochBalanceUpdate. -/

theorem epoch_ok_elim (inp : EpochInput) (st : PoolState) (r : EpochResult)
    (hok : epochBalanceUpdate inp st = .ok r) :
    epochInSecs inp ≤ inp.curTime - st.lastPayout
    ∧ ((algoAvail1 inp st = 0 ∧ tokenAvail0 inp = 0 ∧ r = earlyResult inp st)
       ∨ (¬ (algoAvail1 inp st = 0 ∧ tokenAvail0 inp = 0) ∧ r = mainResult inp st)) := by
  unfold epochBalanceUpdate at hok
  split_ifs at hok with h1 h2 h3
  · simp only [Except.ok.injEq] at hok
    exact ⟨by omega, Or.inl ⟨h3.1, h3.2, hok.symm⟩⟩
  · simp only [Except.ok.injEq] at hok
    exact ⟨by omega, Or.inr ⟨h3, hok.symm⟩⟩

/-! Closed evaluation of the credit formulas on in-scope slots. -/

theorem partCredit_eval (S e cur A : Nat) (s : StakedInfo) (hacct : s.account ≠ 0)
    (ht : cur - s.entryTime < e) :
    partCredit S e cur A s =
      s.balance * A * ((cur - s.entryTime) * 1000 / e) / (S * 1000) := by
  unfold partCredit
  rw [if_neg hacct]
  by_cases h2 : cur < s.entryTime
  · rw [if_pos h2]
    have hz : cur - s.entryTime = 0 := by omega
    simp [hz]
  · rw [if_neg h2, if_pos ht]
    by_cases h4 : 0 < A
    · rw [if_pos h4, wideRatio_three]
    · rw [if_neg h4]
      have hz : A = 0 := by omega
      simp [hz]

theorem fullCredit_eval (E e cur A : Nat) (s : StakedInfo) (he : 0 < e)
    (hacct : s.account ≠ 0) (hfull : e ≤ cur - s.entryTime) :
    fullCredit E e cur A s = s.balance * A / E := by
  have hscope : fullScope e cur s = true := by
    simp only [fullScope, Bool.and_eq_true, decide_eq_true_eq]
    exact ⟨⟨hacct, by omega⟩, hfull⟩
  unfold fullCredit
  rw [if_pos hscope]
  by_cases h : 0 < A
  · rw [if_pos h, wideRatio_two]
  · rw [if_neg h]
    have hz : A = 0 := by omega
    simp [hz]

theorem updateSlot_zero (s : StakedInfo) : updateSlot s 0 0 = s := by
  cases s
  simp [updateSlot]

theorem partScope_eq_of_pos (e cur : Nat) (s : StakedInfo) (he : 0 < e) :
    partScope e cur s =
      (decide (s.account ≠ 0) && decide (cur - s.entryTime < e)) := by
  by_cases hacct : s.account ≠ 0
  · by_cases ht : cur - s.entryTime < e
    · simp [partScope, hacct, ht, Bool.or_true]
    · have h2 : ¬ cur < s.entryTime := by omega
      simp [partScope, hacct, ht, h2]
  · simp [partScope, hacct]

theorem partStakeSum_filter (e cur : Nat) (L : List StakedInfo) (he : 0 < e) :
    partStakeSum e cur L =
      ((L.filter (fun s => decide (s.account ≠ 0)
          && decide (cur - s.entryTime < e))).map (fun s => s.balance)).sum := by
  induction L with
  | nil => rfl
  | cons s rest ih =>
    simp only [partStakeSum, List.filter_cons]
    rw [partScope_eq_of_pos e cur s he]
    by_cases h : (decide (s.account ≠ 0) && decide (cur - s.entryTime < e)) = true
    · rw [if_pos h, if_pos h]
      simp [ih]
    · rw [if_neg h, if_neg h]
      simp [ih]

theorem p2Out_balances_of_zeroAvail (inp : EpochInput) (st : PoolState)
    (hA : algoAvail1 inp st = 0) :
    (p2Out inp st).1.map (fun s => s.balance)
      = st.stakers.map (fun s => s.balance) := by
  have h1 : (p1Out inp st).slots.map (fun s => s.balance)
      = st.stakers.map (fun s => s.balance) := by
    unfold p1Out
    rw [hA]
    exact pass1_balances_zeroAvail _ _ _ _ _
  have hAvail : (p1Out inp st).algoAvail = 0 := by
    unfold p1Out
    rw [hA, (pass1_algo _ _ _ _ _ _).2, stream_zero_avail]
  unfold p2Out
  split_ifs with h
  · rw [hAvail, pass2_balances_zeroAvail]
    exact h1
  · exact h1

/-- C5: when the validator's stake exceeds maxAllowedStake =
onlineStake * MAX_VALIDATOR_PCT_OF_ONLINE / 1000, the entire algoReward
goes to the fee sink, no commission is paid and no staker balance is
credited; otherwise the commission equals
floor(algoReward * pctToValidator / 1_000_000) on the pre-credit reward
pool, goes to validatorCommissionAddress, and only the remainder enters
the staker distribution. -/
theorem C5_protocol_cap_and_commission (inp : EpochInput) (st : PoolState)
    (r : EpochResult) (hok : epochBalanceUpdate inp st = .ok r) :
    (maxAllowedStake inp.maxValidatorPctOfOnline < inp.vTotalAlgoStaked →
      r.feeSinkPaid = algoReward0 inp st
      ∧ r.validatorPaid = 0
      ∧ r.newState.stakers.map (fun s => s.balance)
          = st.stakers.map (fun s => s.balance))
    ∧ (inp.vTotalAlgoStaked ≤ maxAllowedStake inp.maxValidatorPctOfOnline →
      r.feeSinkPaid = 0
      ∧ r.validatorPaid = algoReward0 inp st * inp.percentToValidator / 1000000
      ∧ (0 < r.validatorPaid → r.validatorPaidTo = inp.validatorCommissionAddress)
      ∧ r.algoAvailStart = algoReward0 inp st - r.validatorPaid) := by
  obtain ⟨-, hcases⟩ := epoch_ok_elim inp st r hok
  constructor
  · intro hcap
    have hsink : sinkExceeded inp = true := by
      simp [sinkExceeded, hcap]
    have hfee : feeSinkAmt inp st = algoReward0 inp st := by
      unfold feeSinkAmt
      rw [if_pos hsink]
    have hcut : validatorCut inp st = 0 := by
      unfold validatorCut
      rw [if_pos hsink]
    have hA : algoAvail1 inp st = 0 := by
      unfold algoAvail1
      rw [if_pos hsink]
    rcases hcases with ⟨-, -, hr⟩ | ⟨-, hr⟩
    · subst hr
      exact ⟨hfee, hcut, rfl⟩
    · subst hr
      exact ⟨hfee, hcut, p2Out_balances_of_zeroAvail inp st hA⟩
  · intro hcap
    have hsink : sinkExceeded inp = false := by
      simp [sinkExceeded]
      omega
    have hfee : feeSinkAmt inp st = 0 := by
      unfold feeSinkAmt
      rw [if_neg (by simp [hsink])]
    have hcut : validatorCut inp st
        = algoReward0 inp st * inp.percentToValidator / 1000000 := by
      unfold validatorCut
      rw [if_neg (by simp [hsink])]
      by_cases hp : inp.percentToValidator ≠ 0
      · rw [if_pos hp, wideRatio_two]
      · rw [if_neg hp]
        have hz : inp.percentToValidator = 0 := by omega
        simp [hz]
    have hA : algoAvail1 inp st = algoReward0 inp st - validatorCut inp st := by
      unfold algoAvail1
      rw [if_neg (by simp [hsink])]
    rcases hcases with ⟨hA0, -, hr⟩ | ⟨-, hr⟩
    · subst hr
      refine ⟨hfee, hcut, ?_, ?_⟩
      · intro hpos
        simp only [earlyResult] at hpos ⊢
        rw [if_pos hpos]
      · show (0 : Nat) = algoReward0 inp st - validatorCut inp st
        omega
    · subst hr
      refine ⟨hfee, hcut, ?_, ?_⟩
      · intro hpos
        simp only [mainResult] at hpos ⊢
        rw [if_pos hpos]
      · exact hA

/-- C5 witness: at `exC5Input` (five-percent commission, reward pool
2000000, stake far below the cap) the fee sink gets nothing, the
validator receives 100000 to address 77, and 1900000 enters the staker
distribution. -/
theorem C5_protocol_cap_and_commission_witness :
    (mainResult exC5Input exC5State).feeSinkPaid = 0
    ∧ (mainResult exC5Input exC5State).validatorPaid = 100000
    ∧ (mainResult exC5Input exC5State).validatorPaidTo = 77
    ∧ (mainResult exC5Input exC5State).algoAvailStart = 1900000 := by
  have h := (C5_protocol_cap_and_commission exC5Input exC5State
    (mainResult exC5Input exC5State) rfl).2 (by decide)
  refine ⟨h.1, ?_, ?_, ?_⟩
  · rw [h.2.1]
    decide
  · rw [h.2.2.1 (by rw [h.2.1]; decide)]
    rfl
  · rw [h.2.2.2, h.2.1]
    decide

/-- C1: in a distributing epochBalanceUpdate, every non-empty slot with
timeInPool < epochSecs is credited
floor(balance * rewardAvail * timePercent / (totalAlgoStaked * 1000))
with timePercent = floor(timeInPool * 1000 / epochSecs), each credit is
subtracted from the remaining reward stream before the next slot, the
slot's balance is added to partialTotal; every non-empty slot with
timeInPool >= epochSecs is then credited
floor(residual * balance / (totalAlgoStaked - partialTotal)); and when
totalAlgoStaked - partialTotal = 0 the second pass credits nothing. -/
theorem C1_two_pass_allocation (inp : EpochInput) (st : PoolState) (r : EpochResult)
    (hok : epochBalanceUpdate inp st = .ok r)
    (he : 0 < epochInSecs inp)
    (hrun : ¬ (algoAvail1 inp st = 0 ∧ tokenAvail0 inp = 0)) :
    (∀ i, i < st.stakers.length →
      (st.stakers.getD i noSlot).account ≠ 0 →
      inp.curTime - (st.stakers.getD i noSlot).entryTime < epochInSecs inp →
      r.algoCreditsP1.getD i 0 =
        (st.stakers.getD i noSlot).balance
          * (r.algoAvailStart - (r.algoCreditsP1.take i).sum)
          * ((inp.curTime - (st.stakers.getD i noSlot).entryTime) * 1000 / epochInSecs inp)
          / (st.totalAlgoStaked * 1000)
      ∧ r.tokenCreditsP1.getD i 0 =
        (st.stakers.getD i noSlot).balance
          * (r.tokenAvailStart - (r.tokenCreditsP1.take i).sum)
          * ((inp.curTime - (st.stakers.getD i noSlot).entryTime) * 1000 / epochInSecs inp)
          / (st.totalAlgoStaked * 1000))
    ∧ r.partTotal =
        ((st.stakers.filter (fun s => decide (s.account ≠ 0)
            && decide (inp.curTime - s.entryTime < epochInSecs inp))).map
          (fun s => s.balance)).sum
    ∧ (∀ i, i < st.stakers.length →
      (st.stakers.getD i noSlot).account ≠ 0 →
      epochInSecs inp ≤ inp.curTime - (st.stakers.getD i noSlot).entryTime →
      0 < st.totalAlgoStaked - r.partTotal →
      r.algoCreditsP2.getD i 0 =
        (r.algoAvailStart - r.algoCreditsP1.sum)
          * (st.stakers.getD i noSlot).balance
          / (st.totalAlgoStaked - r.partTotal)
      ∧ r.tokenCreditsP2.getD i 0 =
        (r.tokenAvailStart - r.tokenCreditsP1.sum)
          * (st.stakers.getD i noSlot).balance
          / (st.totalAlgoStaked - r.partTotal))
    ∧ (st.totalAlgoStaked - r.partTotal = 0 →
        r.algoCreditsP2 = List.replicate st.stakers.length 0
        ∧ r.tokenCreditsP2 = List.replicate st.stakers.length 0) := by
  obtain ⟨-, hcases⟩ := epoch_ok_elim inp st r hok
  rcases hcases with ⟨hA0, hT0, -⟩ | ⟨-, hr⟩
  · exact absurd ⟨hA0, hT0⟩ hrun
  subst hr
  have hP1a : (mainResult inp st).algoCreditsP1
      = (stream st.totalAlgoStaked (epochInSecs inp) inp.curTime st.stakers
          (algoAvail1 inp st)).1 :=
    (pass1_algo _ _ _ _ _ _).1
  have hP1t : (mainResult inp st).tokenCreditsP1
      = (stream st.totalAlgoStaked (epochInSecs inp) inp.curTime st.stakers
          (tokenAvail0 inp)).1 :=
    (pass1_token _ _ _ _ _ _).1
  have hAvA : (mainResult inp st).algoAvailStart = algoAvail1 inp st := rfl
  have hAvT : (mainResult inp st).tokenAvailStart = tokenAvail0 inp := rfl
  have hPT : (mainResult inp st).partTotal
      = partStakeSum (epochInSecs inp) inp.curTime st.stakers :=
    pass1_partTotal _ _ _ _ _ _
  refine ⟨?_, ?_, ?_, ?_⟩
  · -- pass 1 per-slot formula
    intro i hi hacct ht
    constructor
    · rw [hAvA, hP1a, stream_getD _ _ _ _ _ i hi,
        partCredit_eval _ _ _ _ _ hacct ht]
    · rw [hAvT, hP1t, stream_getD _ _ _ _ _ i hi,
        partCredit_eval _ _ _ _ _ hacct ht]
  · rw [hPT, partStakeSum_filter _ _ _ he]
  · -- pass 2 per-slot formula
    intro i hi hacct hfull hE
    have hEeff : 0 < effStake inp st := hE
    have hpfalse : partScope (epochInSecs inp) inp.curTime (st.stakers.getD i noSlot)
        = false :=
      partScope_of_full _ _ _ he hfull
    have hcA0 : (mainResult inp st).algoCreditsP1.getD i 0 = 0 := by
      rw [hP1a, stream_getD _ _ _ _ _ i hi]
      exact partCredit_nonpart _ _ _ _ _ hpfalse
    have hcT0 : (mainResult inp st).tokenCreditsP1.getD i 0 = 0 := by
      rw [hP1t, stream_getD _ _ _ _ _ i hi]
      exact partCredit_nonpart _ _ _ _ _ hpfalse
    have hslot_i : (p1Out inp st).slots.getD i noSlot = st.stakers.getD i noSlot := by
      show (pass1 st.totalAlgoStaked (epochInSecs inp) inp.curTime st.stakers
        (algoAvail1 inp st) (tokenAvail0 inp)).slots.getD i noSlot = _
      rw [(pass1_slots_shape st.totalAlgoStaked (epochInSecs inp) inp.curTime
        st.stakers (algoAvail1 inp st) (tokenAvail0 inp)).2 i hi]
      have h1 : (pass1 st.totalAlgoStaked (epochInSecs inp) inp.curTime st.stakers
          (algoAvail1 inp st) (tokenAvail0 inp)).algoCredits.getD i 0 = 0 := hcA0
      have h2 : (pass1 st.totalAlgoStaked (epochInSecs inp) inp.curTime st.stakers
          (algoAvail1 inp st) (tokenAvail0 inp)).tokenCredits.getD i 0 = 0 := hcT0
      rw [h1, h2, updateSlot_zero]
    have hi' : i < (p1Out inp st).slots.length := by
      show i < (pass1 st.totalAlgoStaked (epochInSecs inp) inp.curTime st.stakers
        (algoAvail1 inp st) (tokenAvail0 inp)).slots.length
      rw [(pass1_slots_shape st.totalAlgoStaked (epochInSecs inp) inp.curTime
        st.stakers (algoAvail1 inp st) (tokenAvail0 inp)).1]
      exact hi
    have hAf : (p1Out inp st).algoAvail
        = algoAvail1 inp st - (mainResult inp st).algoCreditsP1.sum := by
      rw [hP1a]
      show (pass1 st.totalAlgoStaked (epochInSecs inp) inp.curTime st.stakers
        (algoAvail1 inp st) (tokenAvail0 inp)).algoAvail = _
      rw [(pass1_algo st.totalAlgoStaked (epochInSecs inp) inp.curTime st.stakers
        (algoAvail1 inp st) (tokenAvail0 inp)).2]
      exact stream_avail _ _ _ _ _
    have hTf : (p1Out inp st).tokenAvail
        = tokenAvail0 inp - (mainResult inp st).tokenCreditsP1.sum := by
      rw [hP1t]
      show (pass1 st.totalAlgoStaked (epochInSecs inp) inp.curTime st.stakers
        (algoAvail1 inp st) (tokenAvail0 inp)).tokenAvail = _
      rw [(pass1_token st.totalAlgoStaked (epochInSecs inp) inp.curTime st.stakers
        (algoAvail1 inp st) (tokenAvail0 inp)).2]
      exact stream_avail _ _ _ _ _
    have hgA : (mainResult inp st).algoCreditsP2.getD i 0
        = fullCredit (effStake inp st) (epochInSecs inp) inp.curTime
            ((p1Out inp st).algoAvail) ((p1Out inp st).slots.getD i noSlot) := by
      show (p2Out inp st).2.1.getD i 0 = _
      unfold p2Out
      rw [if_pos hEeff]
      exact (pass2_getD _ _ _ _ _ _ i hi').1
    have hgT : (mainResult inp st).tokenCreditsP2.getD i 0
        = fullCredit (effStake inp st) (epochInSecs inp) inp.curTime
            ((p1Out inp st).tokenAvail) ((p1Out inp st).slots.getD i noSlot) := by
      show (p2Out inp st).2.2.getD i 0 = _
      unfold p2Out
      rw [if_pos hEeff]
      exact (pass2_getD _ _ _ _ _ _ i hi').2.1
    constructor
    · rw [hgA, hslot_i, fullCredit_eval _ _ _ _ _ he hacct hfull, hAf, hAvA,
        Nat.mul_comm]
      rfl
    · rw [hgT, hslot_i, fullCredit_eval _ _ _ _ _ he hacct hfull, hTf, hAvT,
        Nat.mul_comm]
      rfl
  · -- empty second pass
    intro hE0
    have hEeff : ¬ 0 < effStake inp st := by
      have : effStake inp st = st.totalAlgoStaked - (mainResult inp st).partTotal := rfl
      omega
    have hlen : (p1Out inp st).slots.length = st.stakers.length :=
      (pass1_slots_shape st.totalAlgoStaked (epochInSecs inp) inp.curTime
        st.stakers (algoAvail1 inp st) (tokenAvail0 inp)).1
    constructor
    · show (p2Out inp st).2.1 = _
      unfold p2Out
      rw [if_neg hEeff, hlen]
    · show (p2Out inp st).2.2 = _
      unfold p2Out
      rw [if_neg hEeff, hlen]

/-- C1 witness: in the two-staker pool `exC4State` (full-epoch staker 11,
half-epoch staker 12), pass 1 credits staker 12 by the time-weighted
formula (25000000 out of 100000000) and partialTotal is their balance. -/
theorem C1_two_pass_allocation_witness :
    (mainResult exC4Input exC4State).partTotal = 1000000000
    ∧ (mainResult exC4Input exC4State).algoCreditsP1.getD 1 0 =
        1000000000 * (100000000 - 0) * (30 * 1000 / 60) / (2000000000 * 1000) := by
  have h := C1_two_pass_allocation exC4Input exC4State
    (mainResult exC4Input exC4State) rfl (by decide) (by decide)
  constructor
  · rw [h.2.1]
    decide
  · have h1 := (h.1 1 (by decide) (by decide) (by decide)).1
    rw [h1]
    decide

/-! Preservation of the full-epoch slots across pass 1. -/

theorem partCredit_zero_of_full (S e cur A : Nat) (s : StakedInfo)
    (h : fullScope e cur s = true) : partCredit S e cur A s = 0 := by
  simp only [fullScope, Bool.and_eq_true, decide_eq_true_eq] at h
  obtain ⟨⟨hacct, hlt⟩, hge⟩ := h
  unfold partCredit
  rw [if_neg hacct, if_neg (by omega : ¬ cur < s.entryTime),
    if_neg (by omega : ¬ cur - s.entryTime < e)]

theorem fullScope_updateSlot (e cur : Nat) (s : StakedInfo) (a b : Nat) :
    fullScope e cur (updateSlot s a b) = fullScope e cur s := by
  simp [fullScope, updateSlot]

theorem pass1_full_preserved (S e cur : Nat) (L : List StakedInfo) (a t : Nat) :
    fullStakeSum e cur (pass1 S e cur L a t).slots = fullStakeSum e cur L
    ∧ (pass1 S e cur L a t).slots.countP (fullScope e cur)
        = L.countP (fullScope e cur) := by
  induction L generalizing a t with
  | nil => exact ⟨rfl, rfl⟩
  | cons s rest ih =>
    have ihr := ih (a - partCredit S e cur a s) (t - partCredit S e cur t s)
    constructor
    · simp only [pass1, fullStakeSum, fullScope_updateSlot, ihr.1]
      by_cases h : fullScope e cur s = true
      · rw [if_pos h, if_pos h]
        rw [partCredit_zero_of_full S e cur a s h, partCredit_zero_of_full S e cur t s h,
          updateSlot_zero]
      · rw [if_neg h, if_neg h]
    · simp only [pass1, List.countP_cons, fullScope_updateSlot, ihr.2]

theorem countP_full_le_nonempty (e cur : Nat) (L : List StakedInfo) :
    L.countP (fullScope e cur) ≤ L.countP (fun s => decide (s.account ≠ 0)) := by
  induction L with
  | nil => exact Nat.le_refl _
  | cons s rest ih =>
    simp only [List.countP_cons]
    have hstep : (if fullScope e cur s = true then 1 else 0)
        ≤ (if decide (s.account ≠ 0) = true then 1 else 0) := by
      by_cases h : fullScope e cur s = true
      · have hacct : s.account ≠ 0 := by
          simp only [fullScope, Bool.and_eq_true, decide_eq_true_eq] at h
          exact h.1.1
        simp [h, hacct]
      · simp [h]
    omega

theorem validatorCut_le (inp : EpochInput) (st : PoolState)
    (hpct : inp.percentToValidator ≤ 1000000) :
    validatorCut inp st ≤ algoReward0 inp st := by
  unfold validatorCut
  split_ifs with h1 h2
  · exact Nat.zero_le _
  · rw [wideRatio_two]
    calc algoReward0 inp st * inp.percentToValidator / 1000000
        ≤ algoReward0 inp st * 1000000 / 1000000 :=
          Nat.div_le_div_right (Nat.mul_le_mul_left _ hpct)
      _ = algoReward0 inp st := Nat.mul_div_cancel _ (by omega)
  · exact Nat.zero_le _

/-- C3 counterexample: a pool whose only staker is halfway through the
epoch, zero commission, reward pool 2000001 and the protocol cap not
exceeded.  The successful update credits only 1000000; the undistributed
residual 1000001 far exceeds numStakers + 1 = 2, so the claimed
conservation bound fails as stated. -/
theorem C3_conservation_cex :
    exC3Input.vTotalAlgoStaked ≤ maxAllowedStake exC3Input.maxValidatorPctOfOnline
    ∧ epochBalanceUpdate exC3Input exC3State = .ok (mainResult exC3Input exC3State)
    ∧ algoReward0 exC3Input exC3State = 2000001
    ∧ (mainResult exC3Input exC3State).validatorPaid = 0
    ∧ (mainResult exC3Input exC3State).increasedStake = 1000000
    ∧ exC3State.numStakers = 1
    ∧ (mainResult exC3Input exC3State).validatorPaid
        + (mainResult exC3Input exC3State).increasedStake
        + (exC3State.numStakers + 1)
      < algoReward0 exC3Input exC3State := by
  exact ⟨by decide, rfl, by decide, by decide, by decide, by decide, by decide⟩

/-- C3 (amended): when the protocol cap is not exceeded AND at least one
staker has been in the pool a full epoch (effective stake positive), the
sum of staker algo credits plus the validator commission equals the
initial algoReward minus a rounding shortfall of at most
numStakers + 1.  Without a full-epoch staker the pass-2 residual is not
distributed at all and rolls into the next epoch. -/
theorem C3_conservation_amended (inp : EpochInput) (st : PoolState) (r : EpochResult)
    (hok : epochBalanceUpdate inp st = .ok r)
    (hcap : inp.vTotalAlgoStaked ≤ maxAllowedStake inp.maxValidatorPctOfOnline)
    (he : 0 < epochInSecs inp)
    (hwf : (st.stakers.map (fun s => s.balance)).sum = st.totalAlgoStaked)
    (hz : ∀ s ∈ st.stakers, s.account = 0 → s.balance = 0)
    (hpct : inp.percentToValidator ≤ 1000000)
    (hnum : st.stakers.countP (fun s => decide (s.account ≠ 0)) = st.numStakers)
    (hful : 0 < fullStakeSum (epochInSecs inp) inp.curTime st.stakers) :
    r.validatorPaid + r.increasedStake ≤ algoReward0 inp st
    ∧ algoReward0 inp st ≤ r.validatorPaid + r.increasedStake + (st.numStakers + 1) := by
  have hsink : sinkExceeded inp = false := by
    simp only [sinkExceeded, decide_eq_false_iff_not]
    omega
  have hcutle := validatorCut_le inp st hpct
  have hA1 : algoAvail1 inp st = algoReward0 inp st - validatorCut inp st := by
    unfold algoAvail1
    rw [if_neg (by simp [hsink])]
  obtain ⟨-, hcases⟩ := epoch_ok_elim inp st r hok
  rcases hcases with ⟨hA0, -, hr⟩ | ⟨-, hr⟩
  · subst hr
    have hcut : validatorCut inp st = algoReward0 inp st := by omega
    constructor
    · show validatorCut inp st + 0 ≤ algoReward0 inp st
      omega
    · show algoReward0 inp st ≤ validatorCut inp st + 0 + (st.numStakers + 1)
      omega
  · subst hr
    have hb : ∀ s ∈ st.stakers, s.balance ≤ st.totalAlgoStaked := by
      intro s hs
      rw [← hwf]
      exact balance_le_sum _ _ hs
    have hsplit := part_full_split (epochInSecs inp) inp.curTime st.stakers he hz
    have hP1sum : (p1Out inp st).algoCredits.sum ≤ algoAvail1 inp st := by
      have h1 : (p1Out inp st).algoCredits
          = (stream st.totalAlgoStaked (epochInSecs inp) inp.curTime st.stakers
              (algoAvail1 inp st)).1 :=
        (pass1_algo _ _ _ _ _ _).1
      rw [h1]
      exact stream_sum_le _ _ _ _ _ hb
    have hAf : (p1Out inp st).algoAvail
        = algoAvail1 inp st - (p1Out inp st).algoCredits.sum := by
      have h1 : (p1Out inp st).algoCredits
          = (stream st.totalAlgoStaked (epochInSecs inp) inp.curTime st.stakers
              (algoAvail1 inp st)).1 :=
        (pass1_algo _ _ _ _ _ _).1
      have h2 : (p1Out inp st).algoAvail
          = (stream st.totalAlgoStaked (epochInSecs inp) inp.curTime st.stakers
              (algoAvail1 inp st)).2 :=
        (pass1_algo _ _ _ _ _ _).2
      rw [h1, h2]
      exact stream_avail _ _ _ _ _
    have hPT : (p1Out inp st).partTotal
        = partStakeSum (epochInSecs inp) inp.curTime st.stakers :=
      pass1_partTotal _ _ _ _ _ _
    have hEeq : effStake inp st
        = fullStakeSum (epochInSecs inp) inp.curTime st.stakers := by
      show st.totalAlgoStaked - (p1Out inp st).partTotal = _
      rw [hPT]
      omega
    have hEpos : 0 < effStake inp st := by
      rw [hEeq]
      exact hful
    have hfullpre : fullStakeSum (epochInSecs inp) inp.curTime (p1Out inp st).slots
        = fullStakeSum (epochInSecs inp) inp.curTime st.stakers :=
      (pass1_full_preserved _ _ _ _ _ _).1
    have hcntpre : (p1Out inp st).slots.countP (fullScope (epochInSecs inp) inp.curTime)
        = st.stakers.countP (fullScope (epochInSecs inp) inp.curTime) :=
      (pass1_full_preserved _ _ _ _ _ _).2
    have hp2 : p2Out inp st
        = pass2 (effStake inp st) (epochInSecs inp) inp.curTime
            (p1Out inp st).algoAvail (p1Out inp st).tokenAvail (p1Out inp st).slots := by
      unfold p2Out
      rw [if_pos hEpos]
    have hup : (p2Out inp st).2.1.sum ≤ (p1Out inp st).algoAvail := by
      have h := pass2_algo_sum_le (effStake inp st) (epochInSecs inp) inp.curTime
        (p1Out inp st).algoAvail (p1Out inp st).tokenAvail (p1Out inp st).slots
      rw [hfullpre, ← hEeq] at h
      rw [← hp2] at h
      rw [Nat.mul_comm (effStake inp st) ((p1Out inp st).algoAvail)] at h
      exact Nat.le_of_mul_le_mul_right h hEpos
    have hlow : (p1Out inp st).algoAvail
        ≤ (p2Out inp st).2.1.sum
          + st.stakers.countP (fullScope (epochInSecs inp) inp.curTime) := by
      have h := pass2_algo_sum_lower (effStake inp st) (epochInSecs inp) inp.curTime
        (p1Out inp st).algoAvail (p1Out inp st).tokenAvail (p1Out inp st).slots hEpos
      rw [hfullpre, ← hEeq, hcntpre, ← hp2] at h
      have h2 : effStake inp st * (p1Out inp st).algoAvail
          = (p1Out inp st).algoAvail * effStake inp st := Nat.mul_comm _ _
      rw [h2] at h
      have h3 : (p2Out inp st).2.1.sum * effStake inp st
            + st.stakers.countP (fullScope (epochInSecs inp) inp.curTime) * effStake inp st
          = ((p2Out inp st).2.1.sum
              + st.stakers.countP (fullScope (epochInSecs inp) inp.curTime))
            * effStake inp st := by ring
      rw [h3] at h
      exact Nat.le_of_mul_le_mul_right h hEpos
    have hcnt : st.stakers.countP (fullScope (epochInSecs inp) inp.curTime)
        ≤ st.numStakers := by
      rw [← hnum]
      exact countP_full_le_nonempty _ _ _
    have hpaid : (mainResult inp st).validatorPaid = validatorCut inp st := rfl
    have hinc : (mainResult inp st).increasedStake
        = (p1Out inp st).algoCredits.sum + (p2Out inp st).2.1.sum := rfl
    rw [hpaid, hinc]
    omega

/-! Auxiliary facts for the partial-epoch monotonicity argument. -/

theorem partCredit_S_zero (e cur A : Nat) (s : StakedInfo) :
    partCredit 0 e cur A s = 0 := by
  unfold partCredit wideRatio
  split_ifs <;> simp

theorem fullCredit_nonfull (E e cur A : Nat) (s : StakedInfo)
    (h : fullScope e cur s = false) : fullCredit E e cur A s = 0 := by
  unfold fullCredit
  rw [if_neg (by simp [h])]

theorem fullCredit_E_zero (e cur A : Nat) (s : StakedInfo) :
    fullCredit 0 e cur A s = 0 := by
  unfold fullCredit wideRatio
  split_ifs <;> simp

theorem getD_replicate_zero (n i : Nat) :
    (List.replicate n (0 : Nat)).getD i 0 = 0 := by
  induction n generalizing i with
  | zero => simp [List.getD]
  | succ n ih =>
    cases i with
    | zero => simp [List.replicate_succ]
    | succ i => simp [List.replicate_succ, ih]

theorem getD_mem_of_lt (L : List StakedInfo) (i : Nat) (hi : i < L.length) :
    L.getD i noSlot ∈ L := by
  induction L generalizing i with
  | nil => simp at hi
  | cons s rest ih =>
    cases i with
    | zero => simp
    | succ i =>
      simp only [List.getD_cons_succ]
      exact List.mem_cons_of_mem _ (ih i (by simpa using hi))

theorem scopes_not_both (e cur : Nat) (s : StakedInfo) (_he : 0 < e) :
    ¬ (partScope e cur s = true ∧ fullScope e cur s = true) := by
  rintro ⟨hp, hf⟩
  simp only [partScope, fullScope, Bool.and_eq_true, Bool.or_eq_true,
    decide_eq_true_eq] at hp hf
  omega

theorem part_full_le_sum (e cur : Nat) (L : List StakedInfo) (he : 0 < e) :
    partStakeSum e cur L + fullStakeSum e cur L ≤ (L.map (fun s => s.balance)).sum := by
  induction L with
  | nil => simp [partStakeSum, fullStakeSum]
  | cons s rest ih =>
    simp only [partStakeSum, fullStakeSum, List.map_cons, List.sum_cons]
    have hslot : (if partScope e cur s then s.balance else 0)
        + (if fullScope e cur s then s.balance else 0) ≤ s.balance := by
      by_cases hp : partScope e cur s = true
      · have hf : fullScope e cur s = false := by
          cases hx : fullScope e cur s
          · rfl
          · exact absurd ⟨hp, hx⟩ (scopes_not_both e cur s he)
        simp [hp, hf]
      · simp [hp]
        split_ifs <;> omega
    omega

theorem stream_take_sum (S e cur : Nat) (L : List StakedInfo) (A j : Nat)
    (hj : j ≤ L.length) :
    (stream S e cur L A).1.take j = (stream S e cur (L.take j) A).1 := by
  have h := stream_append S e cur (L.take j) (L.drop j) A
  rw [List.take_append_drop] at h
  have h1 : (stream S e cur L A).1
      = (stream S e cur (L.take j) A).1
        ++ (stream S e cur (L.drop j) ((stream S e cur (L.take j) A).2)).1 := by
    rw [h]
  rw [h1]
  have hlen : (stream S e cur (L.take j) A).1.length = j := by
    rw [stream_length]
    exact List.length_take_of_le hj
  exact List.take_left' hlen

theorem stream_final_from (S e cur : Nat) (L : List StakedInfo) (A j : Nat) :
    (stream S e cur L A).2
      = (stream S e cur (L.drop j) ((stream S e cur (L.take j) A).2)).2 := by
  have h := stream_append S e cur (L.take j) (L.drop j) A
  rw [List.take_append_drop] at h
  rw [h]

theorem stream_part_le_full_credit (S e cur : Nat) (L : List StakedInfo) (A : Nat)
    (he : 0 < e)
    (hwf : (L.map (fun s => s.balance)).sum = S)
    (i j : Nat) (hi : i < L.length) (hj : j < L.length)
    (hacct_i : (L.getD i noSlot).account ≠ 0)
    (hbal : (L.getD i noSlot).balance = (L.getD j noSlot).balance)
    (hful : e ≤ cur - (L.getD i noSlot).entryTime)
    (_hprt : cur - (L.getD j noSlot).entryTime < e) :
    (stream S e cur L A).1.getD j 0
      ≤ fullCredit (S - partStakeSum e cur L) e cur (stream S e cur L A).2
          (L.getD i noSlot) := by
  have hscope_i : fullScope e cur (L.getD i noSlot) = true :=
    (fullScope_true_iff e cur _ he).mpr ⟨hacct_i, hful⟩
  have hb_all : ∀ s ∈ L, s.balance ≤ S := by
    intro s hs
    rw [← hwf]
    exact balance_le_sum _ _ hs
  have hF := fullStake_ge_slot e cur L i hi hscope_i
  have hPF : partStakeSum e cur L + fullStakeSum e cur L ≤ S := by
    rw [← hwf]
    exact part_full_le_sum e cur L he
  have hbE : (L.getD i noSlot).balance ≤ S - partStakeSum e cur L := by omega
  have hAj : (stream S e cur (L.take j) A).2
      = A - ((stream S e cur L A).1.take j).sum := by
    rw [stream_avail, stream_take_sum S e cur L A j (Nat.le_of_lt hj)]
  have hcb : (stream S e cur L A).1.getD j 0 * (S * 1000)
      ≤ (L.getD j noSlot).balance * (stream S e cur (L.take j) A).2 * 999 := by
    rw [stream_getD S e cur L A j hj, ← hAj]
    exact partCredit_mul_bound _ _ _ _ _
  by_cases hb0 : (L.getD i noSlot).balance = 0
  · have hbj : (L.getD j noSlot).balance = 0 := by rw [← hbal]; exact hb0
    rcases Nat.eq_zero_or_pos S with hS | hS
    · have hz : (stream S e cur L A).1.getD j 0 = 0 := by
        rw [stream_getD S e cur L A j hj, hS]
        exact partCredit_S_zero _ _ _ _
      rw [hz]
      exact Nat.zero_le _
    · have hle : (stream S e cur L A).1.getD j 0 * (S * 1000) ≤ 0 := by
        have h := hcb
        rw [hbj] at h
        simpa only [Nat.zero_mul] using h
      have h0 : (stream S e cur L A).1.getD j 0 * (S * 1000) = 0 :=
        Nat.le_zero.mp hle
      rcases Nat.mul_eq_zero.mp h0 with h | h
      · rw [h]
        exact Nat.zero_le _
      · omega
  · have hbpos : 0 < (L.getD i noSlot).balance := Nat.pos_of_ne_zero hb0
    have hbiS : (L.getD i noSlot).balance ≤ S := hb_all _ (getD_mem_of_lt L i hi)
    have hSpos : 0 < S := by omega
    have hEpos : 0 < S - partStakeSum e cur L := by omega
    rw [fullCredit_eval _ _ _ _ _ he hacct_i hful, Nat.le_div_iff_mul_le hEpos]
    refine Nat.le_of_mul_le_mul_right ?_ (show 0 < S * 1000 by omega)
    have hb_drop : ∀ s ∈ L.drop j, s.balance ≤ S :=
      fun s hs => hb_all s (List.mem_of_mem_drop hs)
    have hsufb := stream_suffix_bound S e cur (L.drop j)
      ((stream S e cur (L.take j) A).2) hb_drop
    rw [← stream_final_from S e cur L A j] at hsufb
    have hP'P : partStakeSum e cur (L.drop j) ≤ partStakeSum e cur L := by
      conv_rhs => rw [← List.take_append_drop j L]
      rw [partStakeSum_append]
      omega
    have hkey : 999 * (stream S e cur (L.take j) A).2 * (S - partStakeSum e cur L)
        ≤ (stream S e cur L A).2 * (S * 1000) := by
      have hEP : S - partStakeSum e cur L + partStakeSum e cur (L.drop j) ≤ S := by
        omega
      have h1 : 999 * (stream S e cur (L.take j) A).2 * (S - partStakeSum e cur L)
            + 999 * (stream S e cur (L.take j) A).2 * partStakeSum e cur (L.drop j)
          ≤ (stream S e cur (L.take j) A).2 * (S * 1000) := by
        calc 999 * (stream S e cur (L.take j) A).2 * (S - partStakeSum e cur L)
              + 999 * (stream S e cur (L.take j) A).2 * partStakeSum e cur (L.drop j)
            = 999 * (stream S e cur (L.take j) A).2
                * (S - partStakeSum e cur L + partStakeSum e cur (L.drop j)) := by
              ring
          _ ≤ 999 * (stream S e cur (L.take j) A).2 * S :=
              Nat.mul_le_mul_left _ hEP
          _ = ((stream S e cur (L.take j) A).2 * S) * 999 := by ring
          _ ≤ ((stream S e cur (L.take j) A).2 * S) * 1000 :=
              Nat.mul_le_mul_left _ (by omega)
          _ = (stream S e cur (L.take j) A).2 * (S * 1000) := by ring
      omega
    calc (stream S e cur L A).1.getD j 0 * (S - partStakeSum e cur L) * (S * 1000)
        = ((stream S e cur L A).1.getD j 0 * (S * 1000))
            * (S - partStakeSum e cur L) := by ring
      _ ≤ ((L.getD j noSlot).balance * (stream S e cur (L.take j) A).2 * 999)
            * (S - partStakeSum e cur L) :=
          Nat.mul_le_mul_right _ hcb
      _ = (L.getD j noSlot).balance
            * (999 * (stream S e cur (L.take j) A).2 * (S - partStakeSum e cur L)) := by
          ring
      _ ≤ (L.getD j noSlot).balance * ((stream S e cur L A).2 * (S * 1000)) :=
          Nat.mul_le_mul_left _ hkey
      _ = (L.getD i noSlot).balance * (stream S e cur L A).2 * (S * 1000) := by
          rw [hbal]
          ring

/-- C3 witness for the amended claim: in the two-staker scenario
`exC4State` (one full-epoch staker present) the whole reward 100000000
is distributed with zero shortfall, within the numStakers + 1 bound. -/
theorem C3_conservation_amended_witness :
    (mainResult exC4Input exC4State).validatorPaid
        + (mainResult exC4Input exC4State).increasedStake
      ≤ algoReward0 exC4Input exC4State
    ∧ algoReward0 exC4Input exC4State
      ≤ (mainResult exC4Input exC4State).validatorPaid
          + (mainResult exC4Input exC4State).increasedStake
          + (exC4State.numStakers + 1) :=
  C3_conservation_amended exC4Input exC4State (mainResult exC4Input exC4State) rfl
    (by decide) (by decide) (by decide) (by decide) (by decide) (by decide) (by decide)

/-- C4: in an epochBalanceUpdate that succeeds, for two slots of equal
balance — slot i a non-empty staker with timeInPool >= epochSecs, slot j
a staker with timeInPool < epochSecs — the total algo credit (pass 1 plus
pass 2) of the partial-epoch staker never exceeds that of the full-epoch
staker, and likewise for the token credit. -/
theorem C4_partial_monotonic (inp : EpochInput) (st : PoolState) (r : EpochResult)
    (hok : epochBalanceUpdate inp st = .ok r)
    (he : 0 < epochInSecs inp)
    (hwf : (st.stakers.map (fun s => s.balance)).sum = st.totalAlgoStaked)
    (i j : Nat) (hi : i < st.stakers.length) (hj : j < st.stakers.length)
    (hacct_i : (st.stakers.getD i noSlot).account ≠ 0)
    (hbal : (st.stakers.getD i noSlot).balance = (st.stakers.getD j noSlot).balance)
    (hful : epochInSecs inp ≤ inp.curTime - (st.stakers.getD i noSlot).entryTime)
    (hprt : inp.curTime - (st.stakers.getD j noSlot).entryTime < epochInSecs inp) :
    r.algoCreditsP1.getD j 0 + r.algoCreditsP2.getD j 0
      ≤ r.algoCreditsP1.getD i 0 + r.algoCreditsP2.getD i 0
    ∧ r.tokenCreditsP1.getD j 0 + r.tokenCreditsP2.getD j 0
      ≤ r.tokenCreditsP1.getD i 0 + r.tokenCreditsP2.getD i 0 := by
  obtain ⟨-, hcases⟩ := epoch_ok_elim inp st r hok
  rcases hcases with ⟨-, -, hr⟩ | ⟨-, hr⟩
  · subst hr
    constructor <;> simp [earlyResult]
  subst hr
  have hP1a : (mainResult inp st).algoCreditsP1
      = (stream st.totalAlgoStaked (epochInSecs inp) inp.curTime st.stakers
          (algoAvail1 inp st)).1 :=
    (pass1_algo _ _ _ _ _ _).1
  have hP1t : (mainResult inp st).tokenCreditsP1
      = (stream st.totalAlgoStaked (epochInSecs inp) inp.curTime st.stakers
          (tokenAvail0 inp)).1 :=
    (pass1_token _ _ _ _ _ _).1
  have hpfalse_i : partScope (epochInSecs inp) inp.curTime (st.stakers.getD i noSlot)
      = false :=
    partScope_of_full _ _ _ he hful
  have hcA0 : (mainResult inp st).algoCreditsP1.getD i 0 = 0 := by
    rw [hP1a, stream_getD _ _ _ _ _ i hi]
    exact partCredit_nonpart _ _ _ _ _ hpfalse_i
  have hcT0 : (mainResult inp st).tokenCreditsP1.getD i 0 = 0 := by
    rw [hP1t, stream_getD _ _ _ _ _ i hi]
    exact partCredit_nonpart _ _ _ _ _ hpfalse_i
  have hfsj : fullScope (epochInSecs inp) inp.curTime (st.stakers.getD j noSlot)
      = false := by
    cases hx : fullScope (epochInSecs inp) inp.curTime (st.stakers.getD j noSlot)
    · rfl
    · have hc := (fullScope_true_iff _ _ _ he).mp hx
      omega
  have hlen : (p1Out inp st).slots.length = st.stakers.length :=
    (pass1_slots_shape st.totalAlgoStaked (epochInSecs inp) inp.curTime
      st.stakers (algoAvail1 inp st) (tokenAvail0 inp)).1
  have hi' : i < (p1Out inp st).slots.length := by rw [hlen]; exact hi
  have hj' : j < (p1Out inp st).slots.length := by rw [hlen]; exact hj
  have hslot_i : (p1Out inp st).slots.getD i noSlot = st.stakers.getD i noSlot := by
    show (pass1 st.totalAlgoStaked (epochInSecs inp) inp.curTime st.stakers
      (algoAvail1 inp st) (tokenAvail0 inp)).slots.getD i noSlot = _
    rw [(pass1_slots_shape st.totalAlgoStaked (epochInSecs inp) inp.curTime
      st.stakers (algoAvail1 inp st) (tokenAvail0 inp)).2 i hi]
    have h1 : (pass1 st.totalAlgoStaked (epochInSecs inp) inp.curTime st.stakers
        (algoAvail1 inp st) (tokenAvail0 inp)).algoCredits.getD i 0 = 0 := hcA0
    have h2 : (pass1 st.totalAlgoStaked (epochInSecs inp) inp.curTime st.stakers
        (algoAvail1 inp st) (tokenAvail0 inp)).tokenCredits.getD i 0 = 0 := hcT0
    rw [h1, h2, updateSlot_zero]
  have hslot_j : (p1Out inp st).slots.getD j noSlot
      = updateSlot (st.stakers.getD j noSlot)
          ((p1Out inp st).algoCredits.getD j 0)
          ((p1Out inp st).tokenCredits.getD j 0) :=
    (pass1_slots_shape st.totalAlgoStaked (epochInSecs inp) inp.curTime st.stakers
      (algoAvail1 inp st) (tokenAvail0 inp)).2 j hj
  have hfsj' : fullScope (epochInSecs inp) inp.curTime
      ((p1Out inp st).slots.getD j noSlot) = false := by
    rw [hslot_j, fullScope_updateSlot]
    exact hfsj
  have hP2jA : (mainResult inp st).algoCreditsP2.getD j 0 = 0 := by
    show (p2Out inp st).2.1.getD j 0 = 0
    unfold p2Out
    split_ifs with hE
    · rw [(pass2_getD _ _ _ _ _ _ j hj').1]
      exact fullCredit_nonfull _ _ _ _ _ hfsj'
    · exact getD_replicate_zero _ _
  have hP2jT : (mainResult inp st).tokenCreditsP2.getD j 0 = 0 := by
    show (p2Out inp st).2.2.getD j 0 = 0
    unfold p2Out
    split_ifs with hE
    · rw [(pass2_getD _ _ _ _ _ _ j hj').2.1]
      exact fullCredit_nonfull _ _ _ _ _ hfsj'
    · exact getD_replicate_zero _ _
  have hcoreA : (mainResult inp st).algoCreditsP1.getD j 0
      ≤ fullCredit
          (st.totalAlgoStaked - partStakeSum (epochInSecs inp) inp.curTime st.stakers)
          (epochInSecs inp) inp.curTime
          (stream st.totalAlgoStaked (epochInSecs inp) inp.curTime st.stakers
            (algoAvail1 inp st)).2
          (st.stakers.getD i noSlot) := by
    rw [hP1a]
    exact stream_part_le_full_credit st.totalAlgoStaked (epochInSecs inp) inp.curTime
      st.stakers (algoAvail1 inp st) he hwf i j hi hj hacct_i hbal hful hprt
  have hcoreT : (mainResult inp st).tokenCreditsP1.getD j 0
      ≤ fullCredit
          (st.totalAlgoStaked - partStakeSum (epochInSecs inp) inp.curTime st.stakers)
          (epochInSecs inp) inp.curTime
          (stream st.totalAlgoStaked (epochInSecs inp) inp.curTime st.stakers
            (tokenAvail0 inp)).2
          (st.stakers.getD i noSlot) := by
    rw [hP1t]
    exact stream_part_le_full_credit st.totalAlgoStaked (epochInSecs inp) inp.curTime
      st.stakers (tokenAvail0 inp) he hwf i j hi hj hacct_i hbal hful hprt
  have hPTp : (p1Out inp st).partTotal
      = partStakeSum (epochInSecs inp) inp.curTime st.stakers :=
    pass1_partTotal st.totalAlgoStaked (epochInSecs inp) inp.curTime st.stakers
      (algoAvail1 inp st) (tokenAvail0 inp)
  have hES : effStake inp st
      = st.totalAlgoStaked - partStakeSum (epochInSecs inp) inp.curTime st.stakers := by
    show st.totalAlgoStaked - (p1Out inp st).partTotal = _
    rw [hPTp]
  have hAvP : (p1Out inp st).algoAvail
      = (stream st.totalAlgoStaked (epochInSecs inp) inp.curTime st.stakers
          (algoAvail1 inp st)).2 :=
    (pass1_algo st.totalAlgoStaked (epochInSecs inp) inp.curTime st.stakers
      (algoAvail1 inp st) (tokenAvail0 inp)).2
  have hTvP : (p1Out inp st).tokenAvail
      = (stream st.totalAlgoStaked (epochInSecs inp) inp.curTime st.stakers
          (tokenAvail0 inp)).2 :=
    (pass1_token st.totalAlgoStaked (epochInSecs inp) inp.curTime st.stakers
      (algoAvail1 inp st) (tokenAvail0 inp)).2
  by_cases hE : 0 < effStake inp st
  · have hgA : (mainResult inp st).algoCreditsP2.getD i 0
        = fullCredit
            (st.totalAlgoStaked - partStakeSum (epochInSecs inp) inp.curTime st.stakers)
            (epochInSecs inp) inp.curTime
            (stream st.totalAlgoStaked (epochInSecs inp) inp.curTime st.stakers
              (algoAvail1 inp st)).2
            (st.stakers.getD i noSlot) := by
      show (p2Out inp st).2.1.getD i 0 = _
      unfold p2Out
      rw [if_pos hE, (pass2_getD _ _ _ _ _ _ i hi').1, hslot_i, hES, hAvP]
    have hgT : (mainResult inp st).tokenCreditsP2.getD i 0
        = fullCredit
            (st.totalAlgoStaked - partStakeSum (epochInSecs inp) inp.curTime st.stakers)
            (epochInSecs inp) inp.curTime
            (stream st.totalAlgoStaked (epochInSecs inp) inp.curTime st.stakers
              (tokenAvail0 inp)).2
            (st.stakers.getD i noSlot) := by
      show (p2Out inp st).2.2.getD i 0 = _
      unfold p2Out
      rw [if_pos hE, (pass2_getD _ _ _ _ _ _ i hi').2.1, hslot_i, hES, hTvP]
    constructor
    · rw [hP2jA, hcA0, hgA]
      omega
    · rw [hP2jT, hcT0, hgT]
      omega
  · have hE0 : st.totalAlgoStaked - partStakeSum (epochInSecs inp) inp.curTime st.stakers
        = 0 := by
      rw [← hES]
      omega
    have hgA : (mainResult inp st).algoCreditsP2.getD i 0 = 0 := by
      show (p2Out inp st).2.1.getD i 0 = 0
      unfold p2Out
      rw [if_neg hE]
      exact getD_replicate_zero _ _
    have hgT : (mainResult inp st).tokenCreditsP2.getD i 0 = 0 := by
      show (p2Out inp st).2.2.getD i 0 = 0
      unfold p2Out
      rw [if_neg hE]
      exact getD_replicate_zero _ _
    rw [hE0, fullCredit_E_zero] at hcoreA hcoreT
    constructor
    · rw [hP2jA, hcA0, hgA]
      omega
    · rw [hP2jT, hcT0, hgT]
      omega

/-- C4 witness: in the two-staker pool `exC4State` (full-epoch staker 11 at
slot 0, half-epoch staker 12 at slot 1, equal balances), the partial-epoch
staker's total algo credit is at most the full-epoch staker's. -/
theorem C4_partial_monotonic_witness :
    (mainResult exC4Input exC4State).algoCreditsP1.getD 1 0
        + (mainResult exC4Input exC4State).algoCreditsP2.getD 1 0
      ≤ (mainResult exC4Input exC4State).algoCreditsP1.getD 0 0
        + (mainResult exC4Input exC4State).algoCreditsP2.getD 0 0 :=
  (C4_partial_monotonic exC4Input exC4State (mainResult exC4Input exC4State) rfl
    (by decide) (by decide) 0 1 (by decide) (by decide) (by decide) (by decide)
    (by decide) (by decide)).1

end Reti
